import Mathlib

/-!
Shallow embedding of the availability scheduling and indexing engine of
`src/backend/src/availabilities.rs`, together with proofs settling the
frozen claims about its specification.

Modelling conventions:
 - `ic_cdk::api::time()` is constant within one message execution on the
   Internet Computer, so every operation takes the sampled time as a single
   parameter `t : Nat`.
 - `Principal` is modelled as `Nat` (the engine never inspects it).
 - `StableBTreeMap` / `HashMap` are modelled as association lists with
   point get / insert / remove; `insert` replaces the previous binding.
 - Rust `String::len()` counts UTF-8 bytes, modelled by `byteLen`.
 - `display_order` is `v.0.len() as u32`; the deployment target is wasm32
   where `usize` is 32 bits, so the cast is lossless and `Nat` is used.
 - Error strings from `format!` calls keep a fixed prefix of the message;
   the claims only distinguish success from failure and the fixed guard
   messages.
-/

namespace Weeekaly

abbrev Principal := Nat

structure TimeSlot where
  day_of_week : Nat
  start_time : Nat
  end_time : Nat
deriving DecidableEq, Repr

structure BusyTimeBlock where
  start_time : Nat
  end_time : Nat
deriving DecidableEq, Repr

structure Availability where
  id : String
  owner : Principal
  owner_email : Option String
  owner_name : Option String
  title : String
  description : String
  slots : List TimeSlot
  timezone : String
  created_at : Nat
  updated_at : Nat
  busy_times : Option (List BusyTimeBlock)
  is_favorite : Bool
  display_order : Nat
deriving DecidableEq, Repr

structure CreateAvailabilityRequest where
  title : String
  description : String
  slots : List TimeSlot
  timezone : String
  owner_email : Option String
  owner_name : Option String
  busy_times : Option (List BusyTimeBlock)
deriving DecidableEq, Repr

structure UpdateAvailabilityRequest where
  id : String
  title : Option String
  description : Option String
  slots : Option (List TimeSlot)
  timezone : Option String
deriving DecidableEq, Repr

/-- Association-list lookup, modelling map `get`. -/
def alistGet [DecidableEq α] (m : List (α × β)) (k : α) : Option β :=
  (m.find? (fun e => decide (e.1 = k))).map (fun e => e.2)

/-- Remove every binding of key `k`, modelling map `remove`. -/
def alistErase [DecidableEq α] (m : List (α × β)) (k : α) : List (α × β) :=
  m.filter (fun e => !(decide (e.1 = k)))

/-- Insert/replace the binding of key `k`, modelling map `insert`. -/
def alistInsert [DecidableEq α] (m : List (α × β)) (k : α) (v : β) : List (α × β) :=
  (k, v) :: alistErase m k

/-- The four state containers of the engine: `AVAILABILITIES`,
`USER_AVAILABILITIES`, `EMAIL_TO_PRINCIPAL`, `USERNAME_TO_PRINCIPAL`. -/
structure State where
  avails : List (String × Availability)
  users : List (Principal × List String)
  emails : List (String × Principal)
  usernames : List (String × Principal)
deriving DecidableEq, Repr

def State.empty : State := ⟨[], [], [], []⟩

/-- `USER_AVAILABILITIES.get(&p).map(|v| v.0).unwrap_or_default()`. -/
def userIdsOf (s : State) (p : Principal) : List String :=
  (alistGet s.users p).getD []

/-- Rust `str::len()`: the UTF-8 byte length of a string. -/
def byteLen (s : String) : Nat :=
  s.data.foldl (fun n c => n + c.utf8Size) 0

/-- `CHARSET: &[u8] = b"abcdefghijklmnopqrstuvwxyz0123456789"`. -/
def CHARSET : List Char := "abcdefghijklmnopqrstuvwxyz0123456789".data

/-- The pre-collision sample of `generate_availability_id`: six characters
pushed in a loop, each `CHARSET[(time() % 36) as usize]` for the same time
value `t`. -/
def baseSample (t : Nat) : String :=
  (List.range 6).foldl (fun acc _ => acc.push (CHARSET.getD (t % 36) 'a')) ""

/-- `generate_availability_id`: the sample, suffixed with the decimal
representation of `time() % 100` when it already is a key of the store. -/
def generate_availability_id (t : Nat) (avails : List (String × Availability)) : String :=
  let id := baseSample t
  if (alistGet avails id).isSome then id ++ Nat.repr (t % 100) else id

/-- `validate_time_slot`. -/
def validate_time_slot (slot : TimeSlot) : Except String Unit :=
  if 6 < slot.day_of_week then .error "day_of_week must be 0-6 (Sunday-Saturday)"
  else if 1440 ≤ slot.start_time then .error "start_time must be 0-1439 (minutes in a day)"
  else if 1440 ≤ slot.end_time then .error "end_time must be 0-1439 (minutes in a day)"
  else if slot.end_time ≤ slot.start_time then .error "start_time must be less than end_time"
  else .ok ()

/-- `check_slot_overlaps`: the nested `i < j` loop, rejecting the first pair
of same-day slots whose half-open intervals intersect. -/
def check_slot_overlaps : List TimeSlot → Except String Unit
  | [] => .ok ()
  | s1 :: rest =>
    if rest.any (fun s2 => decide (s1.day_of_week = s2.day_of_week) &&
        decide (s1.start_time < s2.end_time) && decide (s2.start_time < s1.end_time)) then
      .error "Overlapping slots"
    else check_slot_overlaps rest

/-- The `for slot in slots { validate_time_slot(slot)? }` loop. -/
def validateSlots : List TimeSlot → Except String Unit
  | [] => .ok ()
  | s :: rest =>
    match validate_time_slot s with
    | .error e => .error e
    | .ok _ => validateSlots rest

/-- `validate_availability`. -/
def validate_availability (title description : String) (slots : List TimeSlot) :
    Except String Unit :=
  if byteLen title = 0 ∨ 100 < byteLen title then .error "title must be 1-100 characters"
  else if 500 < byteLen description then .error "description must be 0-500 characters"
  else if slots.isEmpty then .error "at least 1 slot is required"
  else
    match validateSlots slots with
    | .error e => .error e
    | .ok _ => check_slot_overlaps slots

/-- `create_availability`. -/
def create_availability (caller : Principal) (req : CreateAvailabilityRequest) (t : Nat)
    (s : State) : Except String Availability × State :=
  match validate_availability req.title req.description req.slots with
  | .error e => (.error e, s)
  | .ok _ =>
    let display_order := (userIdsOf s caller).length
    let availability : Availability :=
      { id := generate_availability_id t s.avails
        owner := caller
        owner_email := req.owner_email
        owner_name := req.owner_name
        title := req.title
        description := req.description
        slots := req.slots
        timezone := req.timezone
        created_at := t
        updated_at := t
        busy_times := req.busy_times
        is_favorite := display_order == 0
        display_order := display_order }
    let avails := alistInsert s.avails availability.id availability
    let users := alistInsert s.users caller (userIdsOf s caller ++ [availability.id])
    let emails := match req.owner_email with
      | some email => alistInsert s.emails email caller
      | none => s.emails
    let usernames := match req.owner_name with
      | some name => alistInsert s.usernames name caller
      | none => s.usernames
    (.ok availability, { avails := avails, users := users, emails := emails,
                         usernames := usernames })

/-- `get_availability`. -/
def get_availability (id : String) (s : State) : Except String Availability :=
  match alistGet s.avails id with
  | some a => .ok a
  | none => .error "Availability not found"

/-- The `if let Some(title) = req.title` block of `update_availability`. -/
def applyTitle (a : Availability) : Option String → Except String Availability
  | none => .ok a
  | some title =>
    if byteLen title = 0 ∨ 100 < byteLen title then .error "title must be 1-100 characters"
    else .ok { a with title := title }

/-- The `if let Some(description) = req.description` block of `update_availability`. -/
def applyDescription (a : Availability) : Option String → Except String Availability
  | none => .ok a
  | some description =>
    if 500 < byteLen description then .error "description must be 0-500 characters"
    else .ok { a with description := description }

/-- The `if let Some(slots) = req.slots` block of `update_availability`: the
replacement slot set is re-validated as a whole. -/
def applySlots (a : Availability) : Option (List TimeSlot) → Except String Availability
  | none => .ok a
  | some slots =>
    if slots.isEmpty then .error "at least 1 slot is required"
    else
      match validateSlots slots with
      | .error e => .error e
      | .ok _ =>
        match check_slot_overlaps slots with
        | .error e => .error e
        | .ok _ => .ok { a with slots := slots }

/-- The `if let Some(timezone) = req.timezone` block of `update_availability`. -/
def applyTimezone (a : Availability) : Option String → Availability
  | none => a
  | some timezone => { a with timezone := timezone }

/-- `update_availability`. -/
def update_availability (caller : Principal) (req : UpdateAvailabilityRequest) (t : Nat)
    (s : State) : Except String Availability × State :=
  match alistGet s.avails req.id with
  | none => (.error "Availability not found", s)
  | some availability =>
    if availability.owner ≠ caller then
      (.error "Only the owner can update this availability", s)
    else
      match applyTitle availability req.title with
      | .error e => (.error e, s)
      | .ok a1 =>
        match applyDescription a1 req.description with
        | .error e => (.error e, s)
        | .ok a2 =>
          match applySlots a2 req.slots with
          | .error e => (.error e, s)
          | .ok a3 =>
            let a4 := { applyTimezone a3 req.timezone with updated_at := t }
            (.ok a4, { s with avails := alistInsert s.avails req.id a4 })

/-- `delete_availability`. -/
def delete_availability (caller : Principal) (id : String) (s : State) :
    Except String Unit × State :=
  match alistGet s.avails id with
  | none => (.error "Availability not found", s)
  | some a =>
    if a.owner ≠ caller then (.error "Only the owner can delete this availability", s)
    else
      let avails := alistErase s.avails id
      let users := match alistGet s.users caller with
        | some ids => alistInsert s.users caller (ids.filter (fun x => !(decide (x = id))))
        | none => s.users
      (.ok (), { s with avails := avails, users := users })

/-- `list_user_availabilities`: walk the owner index, silently skipping ids
absent from the store. -/
def list_user_availabilities (caller : Principal) (s : State) : List Availability :=
  (userIdsOf s caller).filterMap (fun id => alistGet s.avails id)

/-- The in-place rewrite `ids[pos] = new_id` at the first position of `old_id`. -/
def replaceFirst : List String → String → String → List String
  | [], _, _ => []
  | x :: xs, o, n => if x = o then n :: xs else x :: replaceFirst xs o n

/-- `regenerate_availability_id`. -/
def regenerate_availability_id (caller : Principal) (old_id : String) (t : Nat)
    (s : State) : Except String String × State :=
  match alistGet s.avails old_id with
  | none => (.error "Availability not found", s)
  | some availability =>
    if availability.owner ≠ caller then
      (.error "Only the owner can regenerate this availability ID", s)
    else
      let new_id := generate_availability_id t s.avails
      let newA := { availability with id := new_id, updated_at := t }
      let avails := alistInsert (alistErase s.avails old_id) new_id newA
      let users := match alistGet s.users caller with
        | some ids => alistInsert s.users caller (replaceFirst ids old_id new_id)
        | none => s.users
      (.ok new_id, { s with avails := avails, users := users })

/-- `search_availabilities_by_email`. -/
def search_availabilities_by_email (email : String) (s : State) : List Availability :=
  match alistGet s.emails email with
  | some p => list_user_availabilities p s
  | none => []

/-- `search_availabilities_by_username`. -/
def search_availabilities_by_username (username : String) (s : State) : List Availability :=
  match alistGet s.usernames username with
  | some p => list_user_availabilities p s
  | none => []

/-- `search_availabilities_by_principal`. -/
def search_availabilities_by_principal (principal : Principal) (s : State) :
    List Availability :=
  list_user_availabilities principal s

/-- `update_availability_busy_times`. -/
def update_availability_busy_times (caller : Principal) (id : String)
    (busy_times : List BusyTimeBlock) (t : Nat) (s : State) : Except String Unit × State :=
  match alistGet s.avails id with
  | none => (.error "Availability not found", s)
  | some availability =>
    if availability.owner ≠ caller then (.error "Only the owner can update busy times", s)
    else
      let a2 := { availability with busy_times := some busy_times, updated_at := t }
      (.ok (), { s with avails := alistInsert s.avails id a2 })

/-- `search_by_emails`: the per-key lookup is inlined as in the source. -/
def search_by_emails (emails : List String) (s : State) : List (List Availability) :=
  emails.map (fun email =>
    match alistGet s.emails email with
    | some principal => list_user_availabilities principal s
    | none => [])

/-- `search_by_usernames`: the per-key lookup is inlined as in the source. -/
def search_by_usernames (usernames : List String) (s : State) : List (List Availability) :=
  usernames.map (fun username =>
    match alistGet s.usernames username with
    | some principal => list_user_availabilities principal s
    | none => [])

/-- First pass of `set_favorite_availability`: clear `is_favorite` and touch
`updated_at` for every id of the caller's owner-index entry found in the store. -/
def pass1 (t : Nat) : List String → List (String × Availability) → List (String × Availability)
  | [], m => m
  | i :: rest, m =>
    match alistGet m i with
    | some a => pass1 t rest (alistInsert m i { a with is_favorite := false, updated_at := t })
    | none => pass1 t rest m

/-- Second pass of `set_favorite_availability`: set the target as favorite with
`display_order = 0`. -/
def pass2 (t : Nat) (id : String) (m : List (String × Availability)) :
    List (String × Availability) :=
  match alistGet m id with
  | some target =>
    alistInsert m id { target with is_favorite := true, display_order := 0, updated_at := t }
  | none => m

/-- Third pass of `set_favorite_availability`: walk the owner-index ids in
order, skipping the target, assigning `display_order = ord, ord+1, …` to the
ids found in the store. -/
def pass3 (t : Nat) (id : String) :
    List String → Nat → List (String × Availability) → List (String × Availability)
  | [], _, m => m
  | i :: rest, ord, m =>
    if i = id then pass3 t id rest ord m
    else
      match alistGet m i with
      | some a =>
        pass3 t id rest (ord + 1) (alistInsert m i { a with display_order := ord, updated_at := t })
      | none => pass3 t id rest ord m

/-- `set_favorite_availability`. -/
def set_favorite_availability (caller : Principal) (id : String) (t : Nat) (s : State) :
    Except String Unit × State :=
  match alistGet s.avails id with
  | none => (.error "Availability not found", s)
  | some target_availability =>
    if target_availability.owner ≠ caller then (.error "Only the owner can set favorite", s)
    else
      let user_availability_ids := userIdsOf s caller
      if user_availability_ids.isEmpty then (.error "No availabilities found", s)
      else
        let m := pass1 t user_availability_ids s.avails
        let m := pass2 t id m
        let m := pass3 t id user_availability_ids 1 m
        (.ok (), { s with avails := m })

/-- The operations of the engine, as one step type. -/
inductive Op where
  | create (caller : Principal) (req : CreateAvailabilityRequest) (t : Nat)
  | update (caller : Principal) (req : UpdateAvailabilityRequest) (t : Nat)
  | delete (caller : Principal) (id : String)
  | regenerate (caller : Principal) (old_id : String) (t : Nat)
  | setFavorite (caller : Principal) (id : String) (t : Nat)
  | updateBusyTimes (caller : Principal) (id : String) (busy : List BusyTimeBlock) (t : Nat)
deriving DecidableEq

/-- The state reached by one operation (unchanged when the operation fails). -/
def applyOp : Op → State → State
  | .create caller req t, s => (create_availability caller req t s).2
  | .update caller req t, s => (update_availability caller req t s).2
  | .delete caller id, s => (delete_availability caller id s).2
  | .regenerate caller old_id t, s => (regenerate_availability_id caller old_id t s).2
  | .setFavorite caller id t, s => (set_favorite_availability caller id t s).2
  | .updateBusyTimes caller id busy t, s => (update_availability_busy_times caller id busy t s).2

/-! ## Decidability and association-list lemmas -/

def exceptToSum : Except ε α → Sum ε α
  | .error e => .inl e
  | .ok a => .inr a

instance [DecidableEq ε] [DecidableEq α] : DecidableEq (Except ε α) := fun a b =>
  decidable_of_iff (exceptToSum a = exceptToSum b)
    (by cases a <;> cases b <;> simp [exceptToSum])

theorem alistGet_nil [DecidableEq α] (k : α) : alistGet ([] : List (α × β)) k = none := rfl

theorem alistGet_cons [DecidableEq α] (e : α × β) (m : List (α × β)) (k : α) :
    alistGet (e :: m) k = if e.1 = k then some e.2 else alistGet m k := by
  by_cases h : e.1 = k <;> simp [alistGet, List.find?, h]

theorem alistGet_erase [DecidableEq α] (m : List (α × β)) (k k' : α) :
    alistGet (alistErase m k) k' = if k' = k then none else alistGet m k' := by
  induction m with
  | nil => simp [alistErase, alistGet_nil]
  | cons e m ih =>
    simp only [alistErase, List.filter_cons] at ih ⊢
    by_cases he : e.1 = k
    · simp only [he, decide_True, Bool.not_true, Bool.false_eq_true, if_false]
      rw [ih]
      by_cases hk : k' = k
      · simp [hk]
      · have hne : ¬ e.1 = k' := by rw [he]; exact fun hh => hk hh.symm
        rw [if_neg hk, if_neg hk, alistGet_cons, if_neg hne]
    · simp only [he, decide_False, Bool.not_false, if_true]
      rw [alistGet_cons, alistGet_cons, ih]
      by_cases hk2 : e.1 = k'
      · have hne : ¬ k' = k := fun hh => he (hk2.trans hh)
        simp [hk2, hne]
      · simp [hk2]

theorem alistGet_insert [DecidableEq α] (m : List (α × β)) (k k' : α) (v : β) :
    alistGet (alistInsert m k v) k' = if k' = k then some v else alistGet m k' := by
  simp only [alistInsert, alistGet_cons, alistGet_erase]
  by_cases h : k = k'
  · subst h; simp
  · have h2 : ¬ k' = k := fun hh => h hh.symm
    simp [h, h2]

theorem alistGet_eq_some_mem [DecidableEq α] {m : List (α × β)} {k : α} {v : β}
    (h : alistGet m k = some v) : (k, v) ∈ m := by
  induction m with
  | nil => simp [alistGet_nil] at h
  | cons e m ih =>
    rw [alistGet_cons] at h
    by_cases he : e.1 = k
    · rw [if_pos he] at h
      cases h
      subst he
      exact (show (e.1, e.2) = e from rfl) ▸ List.mem_cons_self e m
    · rw [if_neg he] at h
      exact List.mem_cons_of_mem _ (ih h)

/-! ## Spec predicates for the validator (from the per-check conditions of
`validate_time_slot` and `check_slot_overlaps`) -/

/-- Structural validity of one slot. -/
def SlotOkP (sl : TimeSlot) : Prop :=
  sl.day_of_week ≤ 6 ∧ sl.start_time < 1440 ∧ sl.end_time < 1440 ∧
    sl.start_time < sl.end_time

/-- Two slots do not collide: not on the same day with intersecting
half-open intervals. -/
def NoOv (s1 s2 : TimeSlot) : Prop :=
  ¬ (s1.day_of_week = s2.day_of_week ∧ s1.start_time < s2.end_time ∧
     s2.start_time < s1.end_time)

theorem NoOv_symm : Symmetric NoOv := by
  intro s1 s2 h hc
  exact h ⟨hc.1.symm, hc.2.2, hc.2.1⟩

theorem validate_time_slot_ok_iff (sl : TimeSlot) :
    validate_time_slot sl = .ok () ↔ SlotOkP sl := by
  simp only [validate_time_slot, SlotOkP]
  split
  · next h => simp; omega
  · split
    · next h => simp; omega
    · split
      · next h => simp; omega
      · split
        · next h => simp; omega
        · next h1 h2 h3 h4 => simp; omega

theorem validateSlots_ok_iff (ls : List TimeSlot) :
    validateSlots ls = .ok () ↔ ∀ sl ∈ ls, SlotOkP sl := by
  induction ls with
  | nil => simp [validateSlots]
  | cons s rest ih =>
    simp only [validateSlots]
    cases hv : validate_time_slot s with
    | error e =>
      have : ¬ SlotOkP s := by
        rw [← validate_time_slot_ok_iff, hv]
        simp
      simp [this]
    | ok u =>
      cases u
      have : SlotOkP s := (validate_time_slot_ok_iff s).mp hv
      simp [ih, this]

theorem check_slot_overlaps_ok_iff (ls : List TimeSlot) :
    check_slot_overlaps ls = .ok () ↔ ls.Pairwise NoOv := by
  induction ls with
  | nil => simp [check_slot_overlaps]
  | cons s1 rest ih =>
    simp only [check_slot_overlaps, List.pairwise_cons]
    cases hany : rest.any (fun s2 => decide (s1.day_of_week = s2.day_of_week) &&
        decide (s1.start_time < s2.end_time) && decide (s2.start_time < s1.end_time)) with
    | true =>
      simp only [List.any_eq_true, Bool.and_eq_true, decide_eq_true_eq] at hany
      obtain ⟨s2, hm, hc⟩ := hany
      simp only [if_true]
      constructor
      · intro hc2; simp at hc2
      · rintro ⟨hall, -⟩
        exact ((hall s2 hm) ⟨hc.1.1, hc.1.2, hc.2⟩).elim
    | false =>
      have hall : ∀ s2 ∈ rest, NoOv s1 s2 := by
        intro s2 hm hc
        have hx : rest.any (fun s2 => decide (s1.day_of_week = s2.day_of_week) &&
            decide (s1.start_time < s2.end_time) && decide (s2.start_time < s1.end_time)) = true := by
          simp only [List.any_eq_true, Bool.and_eq_true, decide_eq_true_eq]
          exact ⟨s2, hm, ⟨hc.1, hc.2.1⟩, hc.2.2⟩
        rw [hany] at hx
        cases hx
      simp only [hany, Bool.false_eq_true, if_false, ih]
      constructor
      · intro hp
        exact ⟨hall, hp⟩
      · intro hp
        exact hp.2

/-- What the whole-request validator accepts, in terms of UTF-8 byte lengths
and the slot predicates. -/
theorem validate_ok_iff (title description : String) (ls : List TimeSlot) :
    validate_availability title description ls = .ok () ↔
      (1 ≤ byteLen title ∧ byteLen title ≤ 100 ∧ byteLen description ≤ 500 ∧
       ls ≠ [] ∧ (∀ sl ∈ ls, SlotOkP sl) ∧ ls.Pairwise NoOv) := by
  simp only [validate_availability]
  by_cases h1 : byteLen title = 0 ∨ 100 < byteLen title
  · rw [if_pos h1]
    constructor
    · intro hc; simp at hc
    · intro hc; omega
  · rw [if_neg h1]
    by_cases h2 : 500 < byteLen description
    · rw [if_pos h2]
      constructor
      · intro hc; simp at hc
      · intro hc; omega
    · rw [if_neg h2]
      cases hls : ls.isEmpty with
      | true =>
        simp only [if_true]
        constructor
        · intro hc; simp at hc
        · intro hc
          exact absurd (List.isEmpty_iff.mp hls) hc.2.2.2.1
      | false =>
        simp only [Bool.false_eq_true, if_false]
        have hne : ls ≠ [] := by
          intro hh
          rw [hh] at hls
          simp at hls
        cases hv : validateSlots ls with
        | error e =>
          have hnot : ¬ ∀ sl ∈ ls, SlotOkP sl := by
            rw [← validateSlots_ok_iff, hv]
            simp
          constructor
          · intro hc; simp at hc
          · intro hc
            exact absurd hc.2.2.2.2.1 hnot
        | ok u =>
          cases u
          have hv2 : ∀ sl ∈ ls, SlotOkP sl := (validateSlots_ok_iff ls).mp hv
          rw [check_slot_overlaps_ok_iff]
          constructor
          · intro hp
            refine ⟨by omega, by omega, by omega, hne, hv2, hp⟩
          · intro hc
            exact hc.2.2.2.2.2

/-! ## Helper lemmas for the identifier generator -/

theorem baseSample_eq (t : Nat) :
    baseSample t = String.mk (List.replicate 6 (CHARSET.getD (t % 36) 'a')) := rfl

theorem CHARSET_length : CHARSET.length = 36 := rfl

theorem baseSample_mod (t : Nat) : baseSample t = baseSample (t % 36) := by
  rw [baseSample_eq, baseSample_eq, Nat.mod_mod_of_dvd t (dvd_refl 36)]

theorem baseSample_chars (t : Nat) : ∀ c ∈ (baseSample t).data, c ∈ CHARSET := by
  intro c hc
  rw [baseSample_eq] at hc
  have hcc : c = CHARSET.getD (t % 36) 'a' := List.eq_of_mem_replicate hc
  have hlt : t % 36 < CHARSET.length := by
    rw [CHARSET_length]
    exact Nat.mod_lt t (by norm_num)
  rw [hcc, List.getD_eq_getElem CHARSET 'a' hlt]
  exact List.getElem_mem hlt

theorem baseSample_length (t : Nat) : (baseSample t).length = 6 := by
  rw [baseSample_eq]
  show (List.replicate 6 (CHARSET.getD (t % 36) 'a')).length = 6
  rw [List.length_replicate]

/-- Decimal representations of numbers below 100 have one digit below ten and
two digits otherwise. -/
theorem repr_length_lt_100 : ∀ n, n < 100 → (Nat.repr n).length = if n < 10 then 1 else 2 := by
  decide

/-! ## Claims C10, C9, C3, C8 -/

/-- Claim C10 (confirmed): for every fixed value t of the time source, all six
characters of the identifier generator's base sample are the same character,
namely the (t mod 36)-th symbol of the alphabet; the sample depends only on
t mod 36, hence ranges over only the 36 identifiers built from the alphabet. -/
theorem C10_base_sample_constant (t : Nat) :
    baseSample t = String.mk (List.replicate 6 (CHARSET.getD (t % 36) 'a')) ∧
    baseSample t = baseSample (t % 36) ∧
    baseSample t ∈ (List.range 36).map
      (fun i => String.mk (List.replicate 6 (CHARSET.getD i 'a'))) := by
  refine ⟨baseSample_eq t, baseSample_mod t, ?_⟩
  rw [List.mem_map]
  exact ⟨t % 36, List.mem_range.mpr (Nat.mod_lt t (by norm_num)), (baseSample_eq t).symm⟩

/-- A concrete availability record used by witnesses and counterexamples. -/
def availA : Availability :=
  { id := "bbbbbb", owner := 0, owner_email := none, owner_name := none, title := "a",
    description := "", slots := [⟨1, 540, 600⟩], timezone := "UTC", created_at := 1,
    updated_at := 1, busy_times := none, is_favorite := true, display_order := 0 }

/-- Claim C9 counterexample: with the sampled identifier "bbbbbb" already a key
of the store and time value 1, the generator returns "bbbbbb1" — the numeric
suffix is the single digit "1", not a 2-digit suffix, so the result has length
7 rather than 6 + 2 = 8. -/
theorem C9_counterexample :
    (alistGet [("bbbbbb", availA)] (baseSample 1)).isSome = true ∧
    generate_availability_id 1 [("bbbbbb", availA)] = "bbbbbb1" ∧
    ("bbbbbb1" : String).length = 7 := by decide

/-- Claim C9 (amended): for every store state and time value t, the generator
returns the 6-character lowercase-alphanumeric base sample when it is not
already a key of the store; when it is, it returns that sample deterministically
extended with the decimal representation of t mod 100 derived from the same time
source (never resampling) — a suffix of one digit when t mod 100 < 10 and of two
digits otherwise. -/
theorem C9_generator (t : Nat) (m : List (String × Availability)) :
    (alistGet m (baseSample t) = none →
      generate_availability_id t m = baseSample t ∧
      (generate_availability_id t m).length = 6 ∧
      ∀ c ∈ (generate_availability_id t m).data, c ∈ CHARSET) ∧
    (∀ a, alistGet m (baseSample t) = some a →
      generate_availability_id t m = baseSample t ++ Nat.repr (t % 100) ∧
      (t % 100 < 10 → (Nat.repr (t % 100)).length = 1) ∧
      (10 ≤ t % 100 → (Nat.repr (t % 100)).length = 2)) := by
  constructor
  · intro hn
    have hgen : generate_availability_id t m = baseSample t := by
      simp [generate_availability_id, hn]
    exact ⟨hgen, by rw [hgen]; exact baseSample_length t, by rw [hgen]; exact baseSample_chars t⟩
  · intro a ha
    have hgen : generate_availability_id t m = baseSample t ++ Nat.repr (t % 100) := by
      simp [generate_availability_id, ha]
    have hlt : t % 100 < 100 := Nat.mod_lt t (by norm_num)
    have hlen := repr_length_lt_100 (t % 100) hlt
    refine ⟨hgen, fun h10 => ?_, fun h10 => ?_⟩
    · rw [hlen, if_pos h10]
    · rw [hlen, if_neg (by omega)]

/-- Claim C9 witness: the amended theorem applied to the collision input of the
counterexample. -/
theorem C9_generator_witness :
    generate_availability_id 1 [("bbbbbb", availA)] = baseSample 1 ++ Nat.repr (1 % 100) :=
  ((C9_generator 1 [("bbbbbb", availA)]).2 availA (by decide)).1

/-- Claim C3 counterexample: a title of 51 two-byte characters has between 1 and
100 characters, and the slot list is structurally valid with no same-day
overlap, yet the validator rejects — Rust measures the title in UTF-8 bytes
(102 here), not characters.  The same input with a one-character ASCII title is
accepted, isolating the title check as the cause. -/
theorem C3_counterexample :
    (String.mk (List.replicate 51 'é')).length = 51 ∧
    ("" : String).length = 0 ∧
    validate_availability "a" "" [⟨1, 540, 600⟩] = .ok () ∧
    validate_availability (String.mk (List.replicate 51 'é')) "" [⟨1, 540, 600⟩] ≠ .ok () := by
  decide

/-- Claim C3 (amended): the validator accepts exactly the inputs with a title of
1-100 UTF-8 bytes, a description of at most 500 UTF-8 bytes, and a non-empty
slot sequence in which every slot satisfies day_of_week ≤ 6, start_time < 1440,
end_time < 1440, start_time < end_time, and no two same-day slots have
intersecting half-open intervals; acceptance is invariant under permutation of
the slot sequence, so any violation causes rejection regardless of slot order. -/
theorem C3_validator (title description : String) (slots : List TimeSlot) :
    (validate_availability title description slots = .ok () ↔
      (1 ≤ byteLen title ∧ byteLen title ≤ 100 ∧ byteLen description ≤ 500 ∧
       slots ≠ [] ∧ (∀ sl ∈ slots, SlotOkP sl) ∧ slots.Pairwise NoOv)) ∧
    (∀ slots2, slots.Perm slots2 →
      (validate_availability title description slots = .ok () ↔
       validate_availability title description slots2 = .ok ())) := by
  refine ⟨validate_ok_iff title description slots, fun slots2 hp => ?_⟩
  rw [validate_ok_iff, validate_ok_iff]
  have h1 : slots ≠ [] ↔ slots2 ≠ [] := by
    rw [← List.length_pos_iff_ne_nil, ← List.length_pos_iff_ne_nil, hp.length_eq]
  have h2 : (∀ sl ∈ slots, SlotOkP sl) ↔ (∀ sl ∈ slots2, SlotOkP sl) := by
    constructor
    · intro h sl hm
      exact h sl (hp.mem_iff.mpr hm)
    · intro h sl hm
      exact h sl (hp.mem_iff.mp hm)
  have h3 : slots.Pairwise NoOv ↔ slots2.Pairwise NoOv :=
    hp.pairwise_iff (fun hxy => NoOv_symm hxy)
  rw [h1, h2, h3]

/-- Claim C3 witness: acceptance of a valid two-slot input is invariant under
swapping the slots. -/
theorem C3_validator_witness :
    validate_availability "a" "" [⟨1, 540, 600⟩, ⟨2, 540, 600⟩] = .ok () ↔
    validate_availability "a" "" [⟨2, 540, 600⟩, ⟨1, 540, 600⟩] = .ok () :=
  (C3_validator "a" "" [⟨1, 540, 600⟩, ⟨2, 540, 600⟩]).2
    [⟨2, 540, 600⟩, ⟨1, 540, 600⟩] (by decide)

theorem map_getD (f : α → β) (l : List α) (d : β) (i : Nat) (h : i < l.length) :
    (l.map f).getD i d = f (l.get ⟨i, h⟩) := by
  have h2 : i < (l.map f).length := by
    rw [List.length_map]
    exact h
  rw [List.getD_eq_getElem _ _ h2, List.getElem_map]
  rfl

/-- Claim C8 (confirmed): each batch search returns a sequence of the same
length as its input whose i-th element is the independent single-key resolution
of the i-th key, and a key with no index match yields the empty list at its
position, never an error. -/
theorem C8_batch_search (s : State) (emails usernames : List String) :
    (search_by_emails emails s).length = emails.length ∧
    (∀ i (h : i < emails.length),
      (search_by_emails emails s).getD i [] =
        search_availabilities_by_email (emails.get ⟨i, h⟩) s) ∧
    (∀ email, alistGet s.emails email = none →
      search_availabilities_by_email email s = []) ∧
    (search_by_usernames usernames s).length = usernames.length ∧
    (∀ i (h : i < usernames.length),
      (search_by_usernames usernames s).getD i [] =
        search_availabilities_by_username (usernames.get ⟨i, h⟩) s) ∧
    (∀ username, alistGet s.usernames username = none →
      search_availabilities_by_username username s = []) := by
  refine ⟨List.length_map emails _, fun i h => ?_, fun email hn => ?_,
          List.length_map usernames _, fun i h => ?_, fun username hn => ?_⟩
  · simp only [search_by_emails]
    rw [map_getD _ emails [] i h]
    rfl
  · simp [search_availabilities_by_email, hn]
  · simp only [search_by_usernames]
    rw [map_getD _ usernames [] i h]
    rfl
  · simp [search_availabilities_by_username, hn]

/-- A concrete state with one availability and one email binding, used by
witnesses. -/
def stateW : State :=
  { avails := [("bbbbbb", availA)], users := [(0, ["bbbbbb"])],
    emails := [("a@x.com", 0)], usernames := [] }

/-- Claim C8 witness: position 1 of a two-key batch over a store that matches
only the first key resolves independently to the empty list. -/
theorem C8_batch_search_witness :
    (search_by_emails ["a@x.com", "nomatch@x.com"] stateW).getD 1 [] =
      search_availabilities_by_email "nomatch@x.com" stateW :=
  (C8_batch_search stateW ["a@x.com", "nomatch@x.com"] []).2.1 1 (by decide)

/-! ## Claim C5: update -/

theorem applyTimezone_eq (a : Availability) (o : Option String) :
    applyTimezone a o = { a with timezone := o.getD a.timezone } := by
  cases o <;> rfl

theorem applyTitle_ok (a : Availability) (o : Option String) (r : Availability)
    (h : applyTitle a o = .ok r) :
    r = { a with title := o.getD a.title } ∧
      ∀ ti, o = some ti → 1 ≤ byteLen ti ∧ byteLen ti ≤ 100 := by
  cases o with
  | none =>
    cases h
    exact ⟨rfl, by intro ti h2; cases h2⟩
  | some ti =>
    simp only [applyTitle] at h
    by_cases hb : byteLen ti = 0 ∨ 100 < byteLen ti
    · rw [if_pos hb] at h
      cases h
    · rw [if_neg hb] at h
      cases h
      refine ⟨rfl, ?_⟩
      intro ti2 h2
      cases h2
      omega

theorem applyTitle_bad (a : Availability) (ti : String)
    (h : byteLen ti = 0 ∨ 100 < byteLen ti) :
    applyTitle a (some ti) = .error "title must be 1-100 characters" := by
  simp only [applyTitle, if_pos h]

theorem applyDescription_ok (a : Availability) (o : Option String) (r : Availability)
    (h : applyDescription a o = .ok r) :
    r = { a with description := o.getD a.description } ∧
      ∀ d2, o = some d2 → byteLen d2 ≤ 500 := by
  cases o with
  | none =>
    cases h
    exact ⟨rfl, by intro d2 h2; cases h2⟩
  | some d2 =>
    simp only [applyDescription] at h
    by_cases hb : 500 < byteLen d2
    · rw [if_pos hb] at h
      cases h
    · rw [if_neg hb] at h
      cases h
      refine ⟨rfl, ?_⟩
      intro d3 h2
      cases h2
      omega

theorem applyDescription_bad (a : Availability) (d2 : String) (h : 500 < byteLen d2) :
    applyDescription a (some d2) = .error "description must be 0-500 characters" := by
  simp only [applyDescription, if_pos h]

theorem applySlots_ok (a : Availability) (o : Option (List TimeSlot)) (r : Availability)
    (h : applySlots a o = .ok r) :
    r = { a with slots := o.getD a.slots } ∧
      ∀ sl, o = some sl → sl ≠ [] ∧ (∀ x ∈ sl, SlotOkP x) ∧ sl.Pairwise NoOv := by
  cases o with
  | none =>
    cases h
    exact ⟨rfl, by intro sl h2; cases h2⟩
  | some sl =>
    simp only [applySlots] at h
    cases hemp : sl.isEmpty with
    | true =>
      rw [hemp] at h
      simp at h
    | false =>
      rw [hemp] at h
      simp only [Bool.false_eq_true, if_false] at h
      cases hv : validateSlots sl with
      | error e =>
        rw [hv] at h
        cases h
      | ok u =>
        cases u
        rw [hv] at h
        cases hc : check_slot_overlaps sl with
        | error e =>
          rw [hc] at h
          cases h
        | ok u2 =>
          cases u2
          rw [hc] at h
          cases h
          refine ⟨rfl, ?_⟩
          intro sl2 h2
          cases h2
          refine ⟨?_, (validateSlots_ok_iff sl).mp hv, (check_slot_overlaps_ok_iff sl).mp hc⟩
          intro hnil
          rw [hnil] at hemp
          simp at hemp

theorem applySlots_bad (a : Availability) (sl : List TimeSlot)
    (h : ¬ (sl ≠ [] ∧ (∀ x ∈ sl, SlotOkP x) ∧ sl.Pairwise NoOv)) :
    ∃ e, applySlots a (some sl) = .error e := by
  simp only [applySlots]
  cases hemp : sl.isEmpty with
  | true => exact ⟨_, rfl⟩
  | false =>
    have hne : sl ≠ [] := by
      intro hnil
      rw [hnil] at hemp
      simp at hemp
    simp only [Bool.false_eq_true, if_false]
    cases hv : validateSlots sl with
    | error e => exact ⟨e, rfl⟩
    | ok u =>
      cases u
      cases hc : check_slot_overlaps sl with
      | error e => exact ⟨e, rfl⟩
      | ok u2 =>
        cases u2
        exact absurd ⟨hne, (validateSlots_ok_iff sl).mp hv,
          (check_slot_overlaps_ok_iff sl).mp hc⟩ h

/-- Claim C5 (confirmed): every Update whose lookup, ownership check or field
validation fails returns an error and leaves the state exactly unchanged;
a successful Update changes only the fields present in the request (each
re-validated with the create rules, slots as a whole replacement set), bumps
updated_at to the call time, and re-stores only that record; the owner index
and lookup indices are never touched. -/
theorem C5_update (caller : Principal) (req : UpdateAvailabilityRequest) (t : Nat)
    (s : State) :
    (∀ e, (update_availability caller req t s).1 = .error e →
      (update_availability caller req t s).2 = s) ∧
    (alistGet s.avails req.id = none →
      (update_availability caller req t s).1 = .error "Availability not found") ∧
    (∀ b, alistGet s.avails req.id = some b → b.owner ≠ caller →
      (update_availability caller req t s).1 =
        .error "Only the owner can update this availability") ∧
    (∀ ti, req.title = some ti → byteLen ti = 0 ∨ 100 < byteLen ti →
      ∃ e, (update_availability caller req t s).1 = .error e) ∧
    (∀ d2, req.description = some d2 → 500 < byteLen d2 →
      ∃ e, (update_availability caller req t s).1 = .error e) ∧
    (∀ sl, req.slots = some sl →
      ¬ (sl ≠ [] ∧ (∀ x ∈ sl, SlotOkP x) ∧ sl.Pairwise NoOv) →
      ∃ e, (update_availability caller req t s).1 = .error e) ∧
    (∀ a, (update_availability caller req t s).1 = .ok a →
      ∃ a0, alistGet s.avails req.id = some a0 ∧ a0.owner = caller ∧
        a = { a0 with title := req.title.getD a0.title,
                      description := req.description.getD a0.description,
                      slots := req.slots.getD a0.slots,
                      timezone := req.timezone.getD a0.timezone,
                      updated_at := t } ∧
        (∀ ti, req.title = some ti → 1 ≤ byteLen ti ∧ byteLen ti ≤ 100) ∧
        (∀ d2, req.description = some d2 → byteLen d2 ≤ 500) ∧
        (∀ sl, req.slots = some sl →
          sl ≠ [] ∧ (∀ x ∈ sl, SlotOkP x) ∧ sl.Pairwise NoOv) ∧
        (update_availability caller req t s).2 =
          { s with avails := alistInsert s.avails req.id a }) ∧
    ((update_availability caller req t s).2.users = s.users ∧
     (update_availability caller req t s).2.emails = s.emails ∧
     (update_availability caller req t s).2.usernames = s.usernames) := by
  cases hget : alistGet s.avails req.id with
  | none =>
    have hu : update_availability caller req t s = (.error "Availability not found", s) := by
      simp [update_availability, hget]
    rw [hu]
    refine ⟨fun e h => rfl, fun h => rfl, ?_, ?_, ?_, ?_, ?_, rfl, rfl, rfl⟩
    · intro b hb
      cases hb
    · exact fun ti h hb => ⟨"Availability not found", rfl⟩
    · exact fun d2 h hb => ⟨"Availability not found", rfl⟩
    · exact fun sl h hb => ⟨"Availability not found", rfl⟩
    · intro a ha
      cases ha
  | some a0 =>
    by_cases howner : a0.owner = caller
    · cases ht : applyTitle a0 req.title with
      | error e1 =>
        have hu : update_availability caller req t s = (.error e1, s) := by
          simp [update_availability, hget, howner, ht]
        rw [hu]
        refine ⟨fun e h => rfl, ?_, ?_, ?_, ?_, ?_, ?_, rfl, rfl, rfl⟩
        · intro h
          cases h
        · intro b hb hown2
          cases hb
          exact absurd howner hown2
        · exact fun ti h hb => ⟨e1, rfl⟩
        · exact fun d2 h hb => ⟨e1, rfl⟩
        · exact fun sl h hb => ⟨e1, rfl⟩
        · intro a ha
          cases ha
      | ok a1 =>
        cases hd : applyDescription a1 req.description with
        | error e2 =>
          have hu : update_availability caller req t s = (.error e2, s) := by
            simp [update_availability, hget, howner, ht, hd]
          rw [hu]
          refine ⟨fun e h => rfl, ?_, ?_, ?_, ?_, ?_, ?_, rfl, rfl, rfl⟩
          · intro h
            cases h
          · intro b hb hown2
            cases hb
            exact absurd howner hown2
          · exact fun ti h hb => ⟨e2, rfl⟩
          · exact fun d2 h hb => ⟨e2, rfl⟩
          · exact fun sl h hb => ⟨e2, rfl⟩
          · intro a ha
            cases ha
        | ok a2 =>
          cases hs : applySlots a2 req.slots with
          | error e3 =>
            have hu : update_availability caller req t s = (.error e3, s) := by
              simp [update_availability, hget, howner, ht, hd, hs]
            rw [hu]
            refine ⟨fun e h => rfl, ?_, ?_, ?_, ?_, ?_, ?_, rfl, rfl, rfl⟩
            · intro h
              cases h
            · intro b hb hown2
              cases hb
              exact absurd howner hown2
            · exact fun ti h hb => ⟨e3, rfl⟩
            · exact fun d2 h hb => ⟨e3, rfl⟩
            · exact fun sl h hb => ⟨e3, rfl⟩
            · intro a ha
              cases ha
          | ok a3 =>
            obtain ⟨ha1, hti⟩ := applyTitle_ok a0 req.title a1 ht
            obtain ⟨ha2, hde⟩ := applyDescription_ok a1 req.description a2 hd
            obtain ⟨ha3, hsl⟩ := applySlots_ok a2 req.slots a3 hs
            have hfin : { applyTimezone a3 req.timezone with updated_at := t } =
                { a0 with title := req.title.getD a0.title,
                          description := req.description.getD a0.description,
                          slots := req.slots.getD a0.slots,
                          timezone := req.timezone.getD a0.timezone,
                          updated_at := t } := by
              rw [applyTimezone_eq, ha3, ha2, ha1]
            have hu : update_availability caller req t s =
                (.ok ({ applyTimezone a3 req.timezone with updated_at := t }),
                 { s with avails := alistInsert s.avails req.id { applyTimezone a3 req.timezone with updated_at := t } }) := by
              simp [update_availability, hget, howner, ht, hd, hs]
            rw [hu]
            refine ⟨?_, ?_, ?_, ?_, ?_, ?_, ?_, rfl, rfl, rfl⟩
            · intro e h
              cases h
            · intro h
              cases h
            · intro b hb hown2
              cases hb
              exact absurd howner hown2
            · intro ti h hb
              have := hti ti h
              omega
            · intro d2 h hb
              have := hde d2 h
              omega
            · intro sl h hb
              exact absurd (hsl sl h) hb
            · intro a ha
              cases ha
              exact ⟨a0, rfl, howner, hfin, hti, hde, hsl, by rw [hfin]⟩
    · have hu : update_availability caller req t s =
          (.error "Only the owner can update this availability", s) := by
        simp [update_availability, hget, howner]
      rw [hu]
      refine ⟨fun e h => rfl, ?_, fun b hb hown2 => rfl, ?_, ?_, ?_, ?_, rfl, rfl, rfl⟩
      · intro h
        cases h
      · exact fun ti h hb => ⟨"Only the owner can update this availability", rfl⟩
      · exact fun d2 h hb => ⟨"Only the owner can update this availability", rfl⟩
      · exact fun sl h hb => ⟨"Only the owner can update this availability", rfl⟩
      · intro a ha
        cases ha

/-- Claim C5 witness: updating a missing record at a concrete state fails with
the not-found error, and the state is unchanged. -/
theorem C5_update_witness :
    (update_availability 0 ⟨"zzzzzz", none, none, none, none⟩ 5 stateW).1 =
      .error "Availability not found" ∧
    (update_availability 0 ⟨"zzzzzz", none, none, none, none⟩ 5 stateW).2 = stateW :=
  ⟨(C5_update 0 ⟨"zzzzzz", none, none, none, none⟩ 5 stateW).2.1 (by decide),
   (C5_update 0 ⟨"zzzzzz", none, none, none, none⟩ 5 stateW).1 "Availability not found"
     ((C5_update 0 ⟨"zzzzzz", none, none, none, none⟩ 5 stateW).2.1 (by decide))⟩

/-! ## Claim C6: delete -/

/-- Claim C6 (confirmed): after Delete(caller, id) succeeds, id is absent from
the store and from the caller's owner-index entry, a subsequent Get(id) returns
the not-found error, and a subsequent List(caller) never returns a record with
that id.  The last part uses the invariant that every stored record's id field
equals its store key, which every operation maintains. -/
theorem C6_delete (caller : Principal) (id : String) (s : State)
    (hkeys : ∀ e ∈ s.avails, e.2.id = e.1)
    (hok : (delete_availability caller id s).1 = .ok ()) :
    alistGet (delete_availability caller id s).2.avails id = none ∧
    id ∉ userIdsOf (delete_availability caller id s).2 caller ∧
    get_availability id (delete_availability caller id s).2 =
      .error "Availability not found" ∧
    ∀ a ∈ list_user_availabilities caller (delete_availability caller id s).2,
      a.id ≠ id := by
  cases hget : alistGet s.avails id with
  | none =>
    have hu : delete_availability caller id s = (.error "Availability not found", s) := by
      simp [delete_availability, hget]
    rw [hu] at hok
    cases hok
  | some a =>
    by_cases howner : a.owner = caller
    · have hu : delete_availability caller id s =
          (.ok (), { s with avails := alistErase s.avails id,
                            users := match alistGet s.users caller with
                              | some ids => alistInsert s.users caller
                                  (ids.filter (fun x => !(decide (x = id))))
                              | none => s.users }) := by
        simp [delete_availability, hget, howner]
      rw [hu]
      have hstore : alistGet (alistErase s.avails id) id = none := by
        rw [alistGet_erase, if_pos rfl]
      refine ⟨hstore, ?_, ?_, ?_⟩
      · cases hu2 : alistGet s.users caller with
        | none =>
          simp only [userIdsOf, hu2]
          intro hm
          simp at hm
        | some ids =>
          simp only [userIdsOf, hu2]
          intro hm
          rw [alistGet_insert, if_pos rfl] at hm
          simp only [Option.getD_some] at hm
          have := (List.mem_filter.mp hm).2
          simp at this
      · simp [get_availability, hstore]
      · intro a2 hm
        simp only [list_user_availabilities] at hm
        obtain ⟨k, hk, hgk⟩ := List.mem_filterMap.mp hm
        rw [alistGet_erase] at hgk
        by_cases hkid : k = id
        · rw [if_pos hkid] at hgk
          cases hgk
        · rw [if_neg hkid] at hgk
          have hk2 : a2.id = k := hkeys (k, a2) (alistGet_eq_some_mem hgk)
          intro hc
          exact hkid (hk2.symm.trans hc)
    · have hu : delete_availability caller id s =
          (.error "Only the owner can delete this availability", s) := by
        simp [delete_availability, hget, howner]
      rw [hu] at hok
      cases hok

/-- Claim C6 witness: deleting the only record of a concrete state. -/
theorem C6_delete_witness :
    alistGet (delete_availability 0 "bbbbbb" stateW).2.avails "bbbbbb" = none ∧
    "bbbbbb" ∉ userIdsOf (delete_availability 0 "bbbbbb" stateW).2 0 ∧
    get_availability "bbbbbb" (delete_availability 0 "bbbbbb" stateW).2 =
      .error "Availability not found" ∧
    ∀ a ∈ list_user_availabilities 0 (delete_availability 0 "bbbbbb" stateW).2,
      a.id ≠ "bbbbbb" :=
  C6_delete 0 "bbbbbb" stateW (by decide) (by decide)

/-! ## Claim C7: regenerate -/

theorem replaceFirst_eq_map_of_nodup (l : List String) (o n : String)
    (hnd : l.Nodup) (hm : o ∈ l) :
    replaceFirst l o n = l.map (fun x => if x = o then n else x) := by
  induction l with
  | nil => cases hm
  | cons x xs ih =>
    rw [List.nodup_cons] at hnd
    by_cases hx : x = o
    · subst hx
      have hno : ∀ y ∈ xs, (if y = x then n else y) = y := by
        intro y hy
        have hyo : ¬ y = x := by
          intro hyo
          apply hnd.1
          rw [← hyo]
          exact hy
        rw [if_neg hyo]
      simp [replaceFirst, List.map_congr_left hno, List.map_id']
    · have hmo : o ∈ xs := by
        cases List.mem_cons.mp hm with
        | inl h => exact absurd h.symm hx
        | inr h => exact h
      simp only [replaceFirst, hx, if_neg, if_false, List.map_cons]
      rw [ih hnd.2 hmo]

/-- The two-create state of the C4 counterexample run: both creates at time 1,
so the store holds exactly the ids "bbbbbb" and "bbbbbb1" for owner 0. -/
def stateC7 : State :=
  (create_availability 0
    ⟨"a", "", [⟨1, 540, 600⟩], "UTC", none, none, none⟩ 1
    (create_availability 0
      ⟨"a", "", [⟨1, 540, 600⟩], "UTC", none, none, none⟩ 1 State.empty).2).2

/-- Claim C7 counterexample: `stateC7` is reached from the empty state by two
successful creates at time 1.  Regenerating "bbbbbb1" at time 1 succeeds and
returns "bbbbbb1" itself: the fresh sample "bbbbbb" collides, and the suffixed
identifier reproduces the old id, so Get(old) does not return not-found. -/
theorem C7_counterexample :
    userIdsOf stateC7 0 = ["bbbbbb", "bbbbbb1"] ∧
    (regenerate_availability_id 0 "bbbbbb1" 1 stateC7).1 = .ok "bbbbbb1" ∧
    get_availability "bbbbbb1" (regenerate_availability_id 0 "bbbbbb1" 1 stateC7).2 ≠
      .error "Availability not found" := by
  decide

/-- Claim C7 (amended): after Regenerate(caller, old) succeeds returning new,
provided the freshly minted identifier differs from old, Get(old) returns the
not-found error; Get(new) returns the record with the same content as the
original except the id and updated_at fields; and the caller's owner-index
entry contains new at the exact position old previously occupied, with all
other positions unchanged. -/
theorem C7_regenerate (caller : Principal) (old_id : String) (t : Nat) (s : State)
    (a : Availability) (hget : alistGet s.avails old_id = some a)
    (hown : a.owner = caller)
    (hne : generate_availability_id t s.avails ≠ old_id)
    (hnodup : (userIdsOf s caller).Nodup)
    (hmem : old_id ∈ userIdsOf s caller) :
    (regenerate_availability_id caller old_id t s).1 =
      .ok (generate_availability_id t s.avails) ∧
    get_availability old_id (regenerate_availability_id caller old_id t s).2 =
      .error "Availability not found" ∧
    alistGet (regenerate_availability_id caller old_id t s).2.avails
        (generate_availability_id t s.avails) =
      some { a with id := generate_availability_id t s.avails, updated_at := t } ∧
    userIdsOf (regenerate_availability_id caller old_id t s).2 caller =
      (userIdsOf s caller).map
        (fun x => if x = old_id then generate_availability_id t s.avails else x) := by
  have hu : regenerate_availability_id caller old_id t s =
      (.ok (generate_availability_id t s.avails),
       { s with
           avails := alistInsert (alistErase s.avails old_id)
             (generate_availability_id t s.avails)
             { a with id := generate_availability_id t s.avails, updated_at := t },
           users := match alistGet s.users caller with
             | some ids => alistInsert s.users caller
                 (replaceFirst ids old_id (generate_availability_id t s.avails))
             | none => s.users }) := by
    simp [regenerate_availability_id, hget, hown]
  rw [hu]
  refine ⟨rfl, ?_, ?_, ?_⟩
  · have hn2 : ¬ old_id = generate_availability_id t s.avails := fun hh => hne hh.symm
    simp [get_availability, alistGet_insert, alistGet_erase, hn2]
  · rw [alistGet_insert, if_pos rfl]
  · cases hu2 : alistGet s.users caller with
    | none =>
      rw [userIdsOf, hu2] at hmem
      simp at hmem
    | some ids =>
      have hids : userIdsOf s caller = ids := by
        rw [userIdsOf, hu2]
        rfl
      rw [hids] at hnodup hmem
      simp only [userIdsOf, hu2, alistGet_insert, if_pos rfl, Option.getD_some, hids]
      exact replaceFirst_eq_map_of_nodup ids old_id _ hnodup hmem

/-- Claim C7 witness: regenerating at a time whose sample is fresh renames the
record and rewrites the index entry in place. -/
theorem C7_regenerate_witness :
    (regenerate_availability_id 0 "bbbbbb" 2 stateW).1 = .ok "cccccc" ∧
    get_availability "bbbbbb" (regenerate_availability_id 0 "bbbbbb" 2 stateW).2 =
      .error "Availability not found" ∧
    alistGet (regenerate_availability_id 0 "bbbbbb" 2 stateW).2.avails "cccccc" =
      some { availA with id := "cccccc", updated_at := 2 } ∧
    userIdsOf (regenerate_availability_id 0 "bbbbbb" 2 stateW).2 0 =
      (userIdsOf stateW 0).map (fun x => if x = "bbbbbb" then "cccccc" else x) :=
  C7_regenerate 0 "bbbbbb" 2 stateW availA (by decide) (by decide) (by decide)
    (by decide) (by decide)

/-! ## Claim C2: set_favorite passes -/

theorem pass1_get (t : Nat) (L : List String) (m : List (String × Availability)) (k : String) :
    alistGet (pass1 t L m) k =
      if k ∈ L then
        (alistGet m k).map (fun a => { a with is_favorite := false, updated_at := t })
      else alistGet m k := by
  induction L generalizing m with
  | nil => simp [pass1]
  | cons i L ih =>
    by_cases hk : k = i
    · subst hk
      cases hm : alistGet m k with
      | none =>
        simp only [pass1, hm]
        rw [ih]
        by_cases hkL : k ∈ L
        · simp [hkL, hm]
        · simp [hkL, hm]
      | some a =>
        simp only [pass1, hm]
        rw [ih]
        have hins : alistGet (alistInsert m k { a with is_favorite := false, updated_at := t }) k
            = some { a with is_favorite := false, updated_at := t } := by
          rw [alistGet_insert, if_pos rfl]
        by_cases hkL : k ∈ L
        · simp [hkL, hins, hm]
        · simp [hkL, hins, hm]
    · cases hm : alistGet m i with
      | none =>
        simp only [pass1, hm]
        rw [ih]
        by_cases hkL : k ∈ L
        · simp [hkL, List.mem_cons, hk]
        · simp [hkL, List.mem_cons, hk]
      | some a =>
        simp only [pass1, hm]
        rw [ih]
        have hins : alistGet (alistInsert m i { a with is_favorite := false, updated_at := t }) k
            = alistGet m k := by
          rw [alistGet_insert, if_neg hk]
        by_cases hkL : k ∈ L
        · simp [hkL, hins, List.mem_cons, hk]
        · simp [hkL, hins, List.mem_cons, hk]

theorem pass2_get (t : Nat) (id : String) (m : List (String × Availability)) (k : String) :
    alistGet (pass2 t id m) k =
      if k = id then
        (alistGet m id).map
          (fun a => { a with is_favorite := true, display_order := 0, updated_at := t })
      else alistGet m k := by
  cases hm : alistGet m id with
  | none =>
    simp only [pass2, hm]
    by_cases hk : k = id
    · subst hk
      simp [hm]
    · simp [hk]
  | some a =>
    simp only [pass2, hm]
    rw [alistGet_insert]
    by_cases hk : k = id
    · simp [hk]
    · simp [hk]

theorem pass3_get_not_mem (t : Nat) (X : String) (L : List String) (o : Nat)
    (m : List (String × Availability)) (k : String) (hk : ¬ k ∈ L) :
    alistGet (pass3 t X L o m) k = alistGet m k := by
  induction L generalizing o m with
  | nil => rfl
  | cons i L ih =>
    have hki : ¬ k = i := fun hh => hk (hh ▸ List.mem_cons_self i L)
    have hkL : ¬ k ∈ L := fun hh => hk (List.mem_cons_of_mem i hh)
    by_cases hi : i = X
    · simp only [pass3, if_pos hi]
      exact ih o m hkL
    · simp only [pass3, if_neg hi]
      cases hm : alistGet m i with
      | none => exact ih o m hkL
      | some a =>
        rw [ih (o + 1) _ hkL, alistGet_insert, if_neg hki]

theorem pass3_get_target (t : Nat) (X : String) (L : List String) (o : Nat)
    (m : List (String × Availability)) :
    alistGet (pass3 t X L o m) X = alistGet m X := by
  induction L generalizing o m with
  | nil => rfl
  | cons i L ih =>
    by_cases hi : i = X
    · simp only [pass3, if_pos hi]
      exact ih o m
    · simp only [pass3, if_neg hi]
      cases hm : alistGet m i with
      | none => exact ih o m
      | some a =>
        rw [ih (o + 1) _, alistGet_insert, if_neg (fun hh => hi hh.symm)]

theorem pass3_spec (t : Nat) (X : String) (L : List String) (o : Nat)
    (m : List (String × Availability)) (hnd : L.Nodup)
    (hall : ∀ i ∈ L, i ≠ X → (alistGet m i).isSome = true) :
    ∀ j, j < (L.filter (fun i => !(decide (i = X)))).length →
      ∃ a, alistGet m ((L.filter (fun i => !(decide (i = X)))).getD j "") = some a ∧
        alistGet (pass3 t X L o m) ((L.filter (fun i => !(decide (i = X)))).getD j "") =
          some { a with display_order := o + j, updated_at := t } := by
  induction L generalizing o m with
  | nil =>
    intro j h
    simp at h
  | cons i L ih =>
    rw [List.nodup_cons] at hnd
    by_cases hi : i = X
    · have hfil : (i :: L).filter (fun i => !(decide (i = X))) =
          L.filter (fun i => !(decide (i = X))) := by
        rw [List.filter_cons]
        simp [hi]
      intro j h
      rw [hfil] at h ⊢
      simp only [pass3, if_pos hi]
      exact ih o m hnd.2 (fun i2 hm2 hne2 => hall i2 (List.mem_cons_of_mem i hm2) hne2) j h
    · have hsome := hall i (List.mem_cons_self i L) hi
      obtain ⟨a, ha⟩ := Option.isSome_iff_exists.mp hsome
      have hfil : (i :: L).filter (fun i => !(decide (i = X))) =
          i :: L.filter (fun i => !(decide (i = X))) := by
        rw [List.filter_cons]
        simp [hi]
      have hall2 : ∀ i2 ∈ L, i2 ≠ X →
          (alistGet (alistInsert m i { a with display_order := o, updated_at := t }) i2).isSome
            = true := by
        intro i2 hm2 hne2
        rw [alistGet_insert]
        by_cases h2 : i2 = i
        · rw [if_pos h2]
          rfl
        · rw [if_neg h2]
          exact hall i2 (List.mem_cons_of_mem i hm2) hne2
      intro j h
      rw [hfil] at h ⊢
      simp only [pass3, if_neg hi, ha]
      cases j with
      | zero =>
        rw [List.getD_cons_zero]
        refine ⟨a, ha, ?_⟩
        rw [pass3_get_not_mem t X L (o + 1) _ i hnd.1, alistGet_insert, if_pos rfl,
          Nat.add_zero]
      | succ j2 =>
        rw [List.getD_cons_succ]
        have h2 : j2 < (L.filter (fun i => !(decide (i = X)))).length := by
          rw [List.length_cons] at h
          omega
        obtain ⟨a2, ha2, hres⟩ :=
          ih (o + 1) (alistInsert m i { a with display_order := o, updated_at := t })
            hnd.2 hall2 j2 h2
        have hkey : (L.filter (fun i => !(decide (i = X)))).getD j2 "" ∈ L := by
          rw [List.getD_eq_getElem _ _ h2]
          exact (List.mem_filter.mp (List.getElem_mem h2)).1
        have hki : ¬ (L.filter (fun i => !(decide (i = X)))).getD j2 "" = i :=
          fun hh => hnd.1 (hh ▸ hkey)
        rw [alistGet_insert, if_neg hki] at ha2
        refine ⟨a2, ha2, ?_⟩
        have heq : o + 1 + j2 = o + (j2 + 1) := by omega
        rw [heq] at hres
        exact hres

theorem filter_ne_length (L : List String) (X : String) (hnd : L.Nodup) (hm : X ∈ L) :
    (L.filter (fun i => !(decide (i = X)))).length + 1 = L.length := by
  induction L with
  | nil => cases hm
  | cons i L ih =>
    rw [List.nodup_cons] at hnd
    by_cases hi : i = X
    · subst hi
      have hfeq : L.filter (fun i2 => !(decide (i2 = i))) = L := by
        apply List.filter_eq_self.mpr
        intro y hy
        have hyne : ¬ y = i := fun hh => hnd.1 (hh ▸ hy)
        simp [hyne]
      rw [List.filter_cons]
      simp [hfeq]
    · have hm2 : X ∈ L := by
        cases List.mem_cons.mp hm with
        | inl h => exact absurd h.symm hi
        | inr h => exact h
      have := ih hnd.2 hm2
      rw [List.filter_cons]
      simp only [hi, decide_False, Bool.not_false, if_true, List.length_cons]
      omega

/-- Claim C2 (amended): provided the caller's owner-index entry contains no
duplicate ids and every indexed id is present in the store, after
SetFavorite(caller, X) succeeds, X is the unique record among the caller's
availabilities with is_favorite = true and has display_order = 0; the other
k-1 indexed records (in their prior owner-index relative order, X removed)
receive display_order = 1, 2, …, k-1 with no repeats, and all have
is_favorite = false.  The no-duplicates proviso is necessary: an id collision
during create can duplicate an index entry, and the third pass then ranks the
duplicated record twice. -/
theorem C2_set_favorite (caller : Principal) (X : String) (t : Nat) (s : State)
    (xa : Availability) (hX : alistGet s.avails X = some xa) (hown : xa.owner = caller)
    (hnd : (userIdsOf s caller).Nodup)
    (hXmem : X ∈ userIdsOf s caller)
    (hall : ∀ i ∈ userIdsOf s caller, (alistGet s.avails i).isSome = true) :
    (set_favorite_availability caller X t s).1 = .ok () ∧
    alistGet (set_favorite_availability caller X t s).2.avails X =
      some { xa with is_favorite := true, display_order := 0, updated_at := t } ∧
    (∀ j, j < ((userIdsOf s caller).filter (fun i => !(decide (i = X)))).length →
      ∃ a, alistGet s.avails
          (((userIdsOf s caller).filter (fun i => !(decide (i = X)))).getD j "") = some a ∧
        alistGet (set_favorite_availability caller X t s).2.avails
            (((userIdsOf s caller).filter (fun i => !(decide (i = X)))).getD j "") =
          some { a with is_favorite := false, display_order := j + 1, updated_at := t }) ∧
    ((userIdsOf s caller).filter (fun i => !(decide (i = X)))).length + 1 =
      (userIdsOf s caller).length := by
  have hne : (userIdsOf s caller).isEmpty = false := by
    cases hids : userIdsOf s caller with
    | nil =>
      rw [hids] at hXmem
      cases hXmem
    | cons x xs => rfl
  have hu : set_favorite_availability caller X t s =
      (.ok (), { s with avails := pass3 t X (userIdsOf s caller) 1 (pass2 t X (pass1 t (userIdsOf s caller) s.avails)) }) := by
    simp [set_favorite_availability, hX, hown, hne]
  rw [hu]
  refine ⟨rfl, ?_, ?_, filter_ne_length _ X hnd hXmem⟩
  · show alistGet (pass3 t X (userIdsOf s caller) 1
        (pass2 t X (pass1 t (userIdsOf s caller) s.avails))) X = _
    rw [pass3_get_target, pass2_get, if_pos rfl, pass1_get, if_pos hXmem, hX]
    rfl
  · have hall3 : ∀ i ∈ userIdsOf s caller, i ≠ X →
        (alistGet (pass2 t X (pass1 t (userIdsOf s caller) s.avails)) i).isSome = true := by
      intro i hm hne2
      rw [pass2_get, if_neg hne2, pass1_get, if_pos hm]
      cases hsk : alistGet s.avails i with
      | none =>
        have h2 := hall i hm
        rw [hsk] at h2
        cases h2
      | some a => rfl
    intro j h
    obtain ⟨a2, ha2, hres⟩ :=
      pass3_spec t X (userIdsOf s caller) 1
        (pass2 t X (pass1 t (userIdsOf s caller) s.avails)) hnd hall3 j h
    set key := ((userIdsOf s caller).filter (fun i => !(decide (i = X)))).getD j "" with hkeydef
    have hkmem : key ∈ (userIdsOf s caller).filter (fun i => !(decide (i = X))) := by
      rw [hkeydef, List.getD_eq_getElem _ _ h]
      exact List.getElem_mem h
    have hkids : key ∈ userIdsOf s caller := (List.mem_filter.mp hkmem).1
    have hkne : ¬ key = X := by
      intro hc
      have h9 := (List.mem_filter.mp hkmem).2
      rw [hc] at h9
      simp at h9
    rw [pass2_get, if_neg hkne, pass1_get, if_pos hkids] at ha2
    cases hsk : alistGet s.avails key with
    | none =>
      rw [hsk] at ha2
      cases ha2
    | some a =>
      rw [hsk] at ha2
      have ha3 : some ({ a with is_favorite := false, updated_at := t } : Availability) =
          some a2 := ha2
      cases ha3
      refine ⟨a, rfl, ?_⟩
      rw [hres]
      have heq : 1 + j = j + 1 := by omega
      rw [heq]

/-- The second record of `stateC7`: id "bbbbbb1", created by the second
create of the run. -/
def availB : Availability :=
  { id := "bbbbbb1", owner := 0, owner_email := none, owner_name := none, title := "a",
    description := "", slots := [⟨1, 540, 600⟩], timezone := "UTC", created_at := 1,
    updated_at := 1, busy_times := none, is_favorite := false, display_order := 1 }

/-- Claim C2 witness: favoriting the second of two records succeeds, makes it
the unique favorite with rank 0, and re-ranks the other record to 1. -/
theorem C2_set_favorite_witness :
    (set_favorite_availability 0 "bbbbbb1" 3 stateC7).1 = .ok () ∧
    alistGet (set_favorite_availability 0 "bbbbbb1" 3 stateC7).2.avails "bbbbbb1" =
      some { availB with is_favorite := true, display_order := 0, updated_at := 3 } :=
  ⟨(C2_set_favorite 0 "bbbbbb1" 3 stateC7 availB (by decide) (by decide) (by decide)
      (by decide) (by decide)).1,
   (C2_set_favorite 0 "bbbbbb1" 3 stateC7 availB (by decide) (by decide) (by decide)
      (by decide) (by decide)).2.1⟩

/-! ## Claim C4: sequences of creates -/

/-- A sequence of create calls by one owner, one time value per call,
returning the final state and the created ids in creation order. -/
def createRun (p : Principal) (req : CreateAvailabilityRequest) :
    List Nat → State → State × List String
  | [], s => (s, [])
  | t :: ts, s =>
    match create_availability p req t s with
    | (.ok a, s2) =>
      let rest := createRun p req ts s2
      (rest.1, a.id :: rest.2)
    | (.error _, s2) =>
      let rest := createRun p req ts s2
      (rest.1, rest.2)

/-- Freshness of a create run: at every step, the sampled identifier is not yet
a key of the store. -/
def FreshRun (p : Principal) (req : CreateAvailabilityRequest) : List Nat → State → Prop
  | [], _ => True
  | t :: ts, s => alistGet s.avails (baseSample t) = none ∧
      FreshRun p req ts (create_availability p req t s).2

/-- The record built by `create_availability` at time t with a fresh sample and
owner-index length ord. -/
def mkRecord (p : Principal) (req : CreateAvailabilityRequest) (t : Nat) (ord : Nat) :
    Availability :=
  { id := baseSample t, owner := p, owner_email := req.owner_email,
    owner_name := req.owner_name, title := req.title, description := req.description,
    slots := req.slots, timezone := req.timezone, created_at := t, updated_at := t,
    busy_times := req.busy_times, is_favorite := ord == 0, display_order := ord }

/-- The state after one `create_availability` with a fresh sample. -/
def createdState (p : Principal) (req : CreateAvailabilityRequest) (t : Nat) (s : State) :
    State :=
  { avails := alistInsert s.avails (baseSample t)
      (mkRecord p req t (userIdsOf s p).length),
    users := alistInsert s.users p (userIdsOf s p ++ [baseSample t]),
    emails := match req.owner_email with
      | some email => alistInsert s.emails email p
      | none => s.emails,
    usernames := match req.owner_name with
      | some name => alistInsert s.usernames name p
      | none => s.usernames }

theorem mkRecord_id (p : Principal) (req : CreateAvailabilityRequest) (t ord : Nat) :
    (mkRecord p req t ord).id = baseSample t := rfl

theorem createRun_spec (p : Principal) (req : CreateAvailabilityRequest)
    (hval : validate_availability req.title req.description req.slots = .ok ()) :
    ∀ (ts : List Nat) (s : State), FreshRun p req ts s →
      (createRun p req ts s).2.length = ts.length ∧
      userIdsOf (createRun p req ts s).1 p = userIdsOf s p ++ (createRun p req ts s).2 ∧
      (∀ k a, alistGet s.avails k = some a →
        alistGet (createRun p req ts s).1.avails k = some a) ∧
      (∀ j, j < ts.length →
        (createRun p req ts s).2.getD j "" = baseSample (ts.getD j 0) ∧
        alistGet (createRun p req ts s).1.avails ((createRun p req ts s).2.getD j "") =
          some (mkRecord p req (ts.getD j 0) ((userIdsOf s p).length + j))) := by
  intro ts
  induction ts with
  | nil =>
    intro s hfr
    refine ⟨rfl, (List.append_nil _).symm, fun k a h => h, ?_⟩
    intro j hj
    cases hj
  | cons t ts ih =>
    intro s hfr
    obtain ⟨hf, hrest⟩ := hfr
    have hgen : generate_availability_id t s.avails = baseSample t := by
      simp [generate_availability_id, hf]
    have hcreate : create_availability p req t s =
        (.ok (mkRecord p req t (userIdsOf s p).length), createdState p req t s) := by
      simp [create_availability, hval, hgen, mkRecord, createdState]
    have hrest2 : FreshRun p req ts (createdState p req t s) := by
      rw [hcreate] at hrest
      exact hrest
    obtain ⟨ih1, ih2, ih3, ih4⟩ := ih (createdState p req t s) hrest2
    have husers2 : userIdsOf (createdState p req t s) p =
        userIdsOf s p ++ [baseSample t] := by
      show (alistGet (alistInsert s.users p (userIdsOf s p ++ [baseSample t])) p).getD [] = _
      rw [alistGet_insert, if_pos rfl]
      rfl
    have hgetS2 : ∀ k, alistGet (createdState p req t s).avails k =
        alistGet (alistInsert s.avails (baseSample t)
          (mkRecord p req t (userIdsOf s p).length)) k := fun k => rfl
    rw [husers2] at ih2 ih4
    have hrun : createRun p req (t :: ts) s =
        ((createRun p req ts (createdState p req t s)).1,
         baseSample t :: (createRun p req ts (createdState p req t s)).2) := by
      simp only [createRun, hcreate, mkRecord_id]
    rw [hrun]
    refine ⟨?_, ?_, ?_, ?_⟩
    · simp only [List.length_cons, ih1]
    · rw [ih2, List.append_assoc]
      rfl
    · intro k a hk
      have hkne : ¬ k = baseSample t := by
        intro hc
        rw [hc, hf] at hk
        cases hk
      apply ih3
      rw [hgetS2, alistGet_insert, if_neg hkne]
      exact hk
    · intro j hj
      cases j with
      | zero =>
        refine ⟨rfl, ?_⟩
        rw [List.getD_cons_zero]
        have hin : alistGet (createdState p req t s).avails (baseSample t) =
            some (mkRecord p req t (userIdsOf s p).length) := by
          rw [hgetS2, alistGet_insert, if_pos rfl]
        have hfinal := ih3 _ _ hin
        rw [hfinal, Nat.add_zero]
        rfl
      | succ j2 =>
        have hj2 : j2 < ts.length := by
          rw [List.length_cons] at hj
          omega
        obtain ⟨hid, hrec⟩ := ih4 j2 hj2
        rw [List.getD_cons_succ, List.getD_cons_succ]
        refine ⟨hid, ?_⟩
        rw [hrec]
        have hlen2 : (userIdsOf s p ++ [baseSample t]).length =
            (userIdsOf s p).length + 1 := by
          rw [List.length_append]
          rfl
        rw [hlen2]
        have heq : (userIdsOf s p).length + 1 + j2 = (userIdsOf s p).length + (j2 + 1) := by
          omega
        rw [heq]

/-- Claim C4 (amended): for every owner and every sequence of time values,
starting from a state where the owner has no availabilities, provided each
create's sampled identifier is fresh (not yet a key of the store), after the
sequential successful creates the owner index lists exactly the created ids in
order, the first created record has is_favorite = true and display_order = 0,
and every subsequent record has is_favorite = false and display_order equal to
its 0-based creation rank (strictly increasing in creation order). -/
theorem C4_create_run (p : Principal) (req : CreateAvailabilityRequest) (ts : List Nat)
    (s : State)
    (hval : validate_availability req.title req.description req.slots = .ok ())
    (hstart : userIdsOf s p = [])
    (hfresh : FreshRun p req ts s) :
    (createRun p req ts s).2.length = ts.length ∧
    userIdsOf (createRun p req ts s).1 p = (createRun p req ts s).2 ∧
    ∀ j, j < ts.length →
      ∃ a, alistGet (createRun p req ts s).1.avails
          ((createRun p req ts s).2.getD j "") = some a ∧
        (a.is_favorite = true ↔ j = 0) ∧ a.display_order = j := by
  obtain ⟨hlen, hids, hpres, hrec⟩ := createRun_spec p req hval ts s hfresh
  rw [hstart] at hids hrec
  refine ⟨hlen, by rw [hids]; rfl, ?_⟩
  intro j hj
  obtain ⟨-, hget⟩ := hrec j hj
  simp only [List.length_nil, Nat.zero_add] at hget
  refine ⟨mkRecord p req (ts.getD j 0) j, hget, ?_, rfl⟩
  show ((j == 0) = true ↔ j = 0)
  simp

/-- A concrete valid request used in the create-run scenarios. -/
def reqC4 : CreateAvailabilityRequest :=
  ⟨"a", "", [⟨1, 540, 600⟩], "UTC", none, none, none⟩

/-- Claim C4 counterexample: three sequential successful creates by owner 0 at
time 1.  The second create mints "bbbbbb1"; the third samples "bbbbbb",
collides, and mints "bbbbbb1" again, overwriting the second record.  The record
at the second created id then has display_order 2, not its creation rank 1, so
the claimed per-rank property fails. -/
theorem C4_counterexample :
    (createRun 0 reqC4 [1, 1, 1] State.empty).2 = ["bbbbbb", "bbbbbb1", "bbbbbb1"] ∧
    ¬ (∀ j, j < 3 →
        (alistGet (createRun 0 reqC4 [1, 1, 1] State.empty).1.avails
            ((createRun 0 reqC4 [1, 1, 1] State.empty).2.getD j "")).map
          (fun a => (a.is_favorite, a.display_order)) = some (decide (j = 0), j)) := by
  decide

/-- Claim C4 witness: two creates at distinct fresh times from the empty state. -/
theorem C4_create_run_witness :
    (createRun 0 reqC4 [1, 2] State.empty).2.length = 2 ∧
    userIdsOf (createRun 0 reqC4 [1, 2] State.empty).1 0 =
      (createRun 0 reqC4 [1, 2] State.empty).2 :=
  ⟨(C4_create_run 0 reqC4 [1, 2] State.empty (by decide) rfl
      ⟨by decide, by decide, trivial⟩).1,
   (C4_create_run 0 reqC4 [1, 2] State.empty (by decide) rfl
      ⟨by decide, by decide, trivial⟩).2.1⟩

/-! ## Claim C1: the favorite invariant -/

/-- Store-owner-index coherence: every stored record's key appears in its
owner's index entry. -/
def OwnerIndexedS (m : List (String × Availability))
    (users : List (Principal × List String)) : Prop :=
  ∀ k a, alistGet m k = some a → k ∈ (alistGet users a.owner).getD []

/-- At most one favorite per owner among the stored records. -/
def AtMostOneFavS (m : List (String × Availability)) : Prop :=
  ∀ k1 k2 a1 a2, alistGet m k1 = some a1 → alistGet m k2 = some a2 →
    a1.owner = a2.owner → a1.is_favorite = true → a2.is_favorite = true → k1 = k2

/-- The inductive invariant of the engine state. -/
def Inv (s : State) : Prop := OwnerIndexedS s.avails s.users ∧ AtMostOneFavS s.avails

theorem Inv_empty : Inv State.empty := by
  constructor
  · intro k a hk
    simp [alistGet, List.find?] at hk
  · intro k1 k2 a1 a2 h1 h2 how f1 f2
    simp [alistGet, List.find?] at h1

theorem atMostOne_of_pres (m1 m2 : List (String × Availability))
    (hpres : ∀ k a2, alistGet m2 k = some a2 → ∃ a1, alistGet m1 k = some a1 ∧
      a1.owner = a2.owner ∧ a1.is_favorite = a2.is_favorite)
    (h : AtMostOneFavS m1) : AtMostOneFavS m2 := by
  intro k1 k2 a1 a2 h1 h2 how f1 f2
  obtain ⟨b1, hb1, how1, hf1⟩ := hpres k1 a1 h1
  obtain ⟨b2, hb2, how2, hf2⟩ := hpres k2 a2 h2
  exact h k1 k2 b1 b2 hb1 hb2 (by rw [how1, how2, how]) (by rw [hf1, f1]) (by rw [hf2, f2])

theorem ownerIndexed_of_pres (m1 m2 : List (String × Availability))
    (users : List (Principal × List String))
    (hpres : ∀ k a2, alistGet m2 k = some a2 →
      ∃ a1, alistGet m1 k = some a1 ∧ a1.owner = a2.owner)
    (h : OwnerIndexedS m1 users) : OwnerIndexedS m2 users := by
  intro k a hk
  obtain ⟨b, hb, how⟩ := hpres k a hk
  rw [← how]
  exact h k b hb

theorem pass3_pres (t : Nat) (X : String) (L : List String) (o : Nat)
    (m : List (String × Availability)) :
    ∀ k a2, alistGet (pass3 t X L o m) k = some a2 →
      ∃ a1, alistGet m k = some a1 ∧ a1.owner = a2.owner ∧
        a1.is_favorite = a2.is_favorite := by
  induction L generalizing o m with
  | nil =>
    intro k a2 h
    exact ⟨a2, h, rfl, rfl⟩
  | cons i L ih =>
    intro k a2 h
    by_cases hi : i = X
    · simp only [pass3, if_pos hi] at h
      exact ih o m k a2 h
    · simp only [pass3, if_neg hi] at h
      cases hm : alistGet m i with
      | none =>
        rw [hm] at h
        exact ih o m k a2 h
      | some a =>
        rw [hm] at h
        obtain ⟨a1, ha1, how, hfav⟩ := ih (o + 1) _ k a2 h
        rw [alistGet_insert] at ha1
        by_cases hk : k = i
        · rw [if_pos hk] at ha1
          cases ha1
          exact ⟨a, hk ▸ hm, how, hfav⟩
        · rw [if_neg hk] at ha1
          exact ⟨a1, ha1, how, hfav⟩

theorem mem_replaceFirst_self (l : List String) (o n : String) (hm : o ∈ l) :
    n ∈ replaceFirst l o n := by
  induction l with
  | nil => cases hm
  | cons x xs ih =>
    by_cases hx : x = o
    · simp only [replaceFirst, if_pos hx]
      exact List.mem_cons_self n xs
    · simp only [replaceFirst, if_neg hx]
      have hmo : o ∈ xs := by
        cases List.mem_cons.mp hm with
        | inl hh => exact absurd hh.symm hx
        | inr hh => exact hh
      exact List.mem_cons_of_mem x (ih hmo)

theorem mem_replaceFirst_of_ne (l : List String) (o n x : String) (hm : x ∈ l)
    (hne : x ≠ o) : x ∈ replaceFirst l o n := by
  induction l with
  | nil => cases hm
  | cons y ys ih =>
    by_cases hy : y = o
    · simp only [replaceFirst, if_pos hy]
      cases List.mem_cons.mp hm with
      | inl hh => exact absurd (hh.trans hy) hne
      | inr hh => exact List.mem_cons_of_mem n hh
    · simp only [replaceFirst, if_neg hy]
      cases List.mem_cons.mp hm with
      | inl hh => exact hh ▸ List.mem_cons_self y (replaceFirst ys o n)
      | inr hh => exact List.mem_cons_of_mem y (ih hh)

theorem update_pres (caller : Principal) (req : UpdateAvailabilityRequest) (t : Nat)
    (s : State) :
    (update_availability caller req t s).2.users = s.users ∧
    ∀ k a2, alistGet (update_availability caller req t s).2.avails k = some a2 →
      ∃ a1, alistGet s.avails k = some a1 ∧ a1.owner = a2.owner ∧
        a1.is_favorite = a2.is_favorite := by
  cases hget : alistGet s.avails req.id with
  | none =>
    have hu : update_availability caller req t s = (.error "Availability not found", s) := by
      simp [update_availability, hget]
    rw [hu]
    exact ⟨rfl, fun k a2 hk => ⟨a2, hk, rfl, rfl⟩⟩
  | some a0 =>
    by_cases howner : a0.owner = caller
    · cases ht : applyTitle a0 req.title with
      | error e1 =>
        have hu : update_availability caller req t s = (.error e1, s) := by
          simp [update_availability, hget, howner, ht]
        rw [hu]
        exact ⟨rfl, fun k a2 hk => ⟨a2, hk, rfl, rfl⟩⟩
      | ok a1 =>
        cases hd : applyDescription a1 req.description with
        | error e2 =>
          have hu : update_availability caller req t s = (.error e2, s) := by
            simp [update_availability, hget, howner, ht, hd]
          rw [hu]
          exact ⟨rfl, fun k a2 hk => ⟨a2, hk, rfl, rfl⟩⟩
        | ok a2 =>
          cases hs : applySlots a2 req.slots with
          | error e3 =>
            have hu : update_availability caller req t s = (.error e3, s) := by
              simp [update_availability, hget, howner, ht, hd, hs]
            rw [hu]
            exact ⟨rfl, fun k a2 hk => ⟨a2, hk, rfl, rfl⟩⟩
          | ok a3 =>
            obtain ⟨ha1, -⟩ := applyTitle_ok a0 req.title a1 ht
            obtain ⟨ha2, -⟩ := applyDescription_ok a1 req.description a2 hd
            obtain ⟨ha3, -⟩ := applySlots_ok a2 req.slots a3 hs
            have hu : update_availability caller req t s =
                (.ok ({ applyTimezone a3 req.timezone with updated_at := t }),
                 { s with avails := alistInsert s.avails req.id { applyTimezone a3 req.timezone with updated_at := t } }) := by
              simp [update_availability, hget, howner, ht, hd, hs]
            rw [hu]
            refine ⟨rfl, ?_⟩
            intro k b2 hk
            rw [alistGet_insert] at hk
            by_cases hkid : k = req.id
            · rw [if_pos hkid] at hk
              cases hk
              refine ⟨a0, hkid ▸ hget, ?_, ?_⟩
              · rw [applyTimezone_eq, ha3, ha2, ha1]
              · rw [applyTimezone_eq, ha3, ha2, ha1]
            · rw [if_neg hkid] at hk
              exact ⟨b2, hk, rfl, rfl⟩
    · have hu : update_availability caller req t s =
          (.error "Only the owner can update this availability", s) := by
        simp [update_availability, hget, howner]
      rw [hu]
      exact ⟨rfl, fun k a2 hk => ⟨a2, hk, rfl, rfl⟩⟩

theorem busy_pres (caller : Principal) (id : String) (busy : List BusyTimeBlock) (t : Nat)
    (s : State) :
    (update_availability_busy_times caller id busy t s).2.users = s.users ∧
    ∀ k a2,
      alistGet (update_availability_busy_times caller id busy t s).2.avails k = some a2 →
      ∃ a1, alistGet s.avails k = some a1 ∧ a1.owner = a2.owner ∧
        a1.is_favorite = a2.is_favorite := by
  cases hget : alistGet s.avails id with
  | none =>
    have hu : update_availability_busy_times caller id busy t s =
        (.error "Availability not found", s) := by
      simp [update_availability_busy_times, hget]
    rw [hu]
    exact ⟨rfl, fun k a2 hk => ⟨a2, hk, rfl, rfl⟩⟩
  | some a0 =>
    by_cases howner : a0.owner = caller
    · have hu : update_availability_busy_times caller id busy t s =
          (.ok (), { s with avails := alistInsert s.avails id { a0 with busy_times := some busy, updated_at := t } }) := by
        simp [update_availability_busy_times, hget, howner]
      rw [hu]
      refine ⟨rfl, ?_⟩
      intro k b2 hk
      rw [alistGet_insert] at hk
      by_cases hkid : k = id
      · rw [if_pos hkid] at hk
        cases hk
        exact ⟨a0, hkid ▸ hget, rfl, rfl⟩
      · rw [if_neg hkid] at hk
        exact ⟨b2, hk, rfl, rfl⟩
    · have hu : update_availability_busy_times caller id busy t s =
          (.error "Only the owner can update busy times", s) := by
        simp [update_availability_busy_times, hget, howner]
      rw [hu]
      exact ⟨rfl, fun k a2 hk => ⟨a2, hk, rfl, rfl⟩⟩

/-- The record built by `create_availability` in the general case (the minted
identifier may carry a collision suffix). -/
def createRecord (caller : Principal) (req : CreateAvailabilityRequest) (t : Nat)
    (s : State) : Availability :=
  { id := generate_availability_id t s.avails, owner := caller,
    owner_email := req.owner_email, owner_name := req.owner_name, title := req.title,
    description := req.description, slots := req.slots, timezone := req.timezone,
    created_at := t, updated_at := t, busy_times := req.busy_times,
    is_favorite := (userIdsOf s caller).length == 0,
    display_order := (userIdsOf s caller).length }

/-- The state reached from empty by Create (t=1), Create (t=2), then Delete of
the first record, which was the favorite. -/
def stateC1 : State :=
  (delete_availability 0 "bbbbbb" (createRun 0 reqC4 [1, 2] State.empty).1).2

/-- Claim C1 counterexample: after Create, Create, Delete-of-the-favorite, the
owner still has one availability ("cccccc", reached by List via the index) but
zero favorites — "exactly one favorite whenever the owner has at least one
availability" fails on the reachable state `stateC1`. -/
theorem C1_counterexample :
    userIdsOf stateC1 0 = ["cccccc"] ∧
    (stateC1.avails.filter (fun e => decide (e.2.owner = 0))).length = 1 ∧
    (stateC1.avails.filter (fun e => decide (e.2.owner = 0) && e.2.is_favorite)).length
      = 0 := by
  decide

/-- The record modification of the first pass of `set_favorite_availability`. -/
def clearFav (t : Nat) (a : Availability) : Availability :=
  { a with is_favorite := false, updated_at := t }

/-- The record modification of the second pass of `set_favorite_availability`. -/
def setFavRec (t : Nat) (a : Availability) : Availability :=
  { a with is_favorite := true, display_order := 0, updated_at := t }

/-- Claim C1 (amended): every operation preserves the invariant `Inv`: the
store and owner index are coherent (each stored record's key appears in its
owner's index entry) and every owner has at most one favorite.  Exactly-one
does not hold: Delete of the current favorite leaves the owner with zero
favorites among its remaining availabilities, and a subsequent Create restores
a favorite only when the owner's index entry is empty. -/
theorem C1_invariant (op : Op) (s : State) (h : Inv s) : Inv (applyOp op s) := by
  obtain ⟨hoi, hfav⟩ := h
  cases op with
  | create caller req t =>
    show Inv (create_availability caller req t s).2
    cases hval : validate_availability req.title req.description req.slots with
    | error e =>
      have hu : (create_availability caller req t s).2 = s := by
        simp [create_availability, hval]
      rw [hu]
      exact ⟨hoi, hfav⟩
    | ok u =>
      cases u
      have hav : (create_availability caller req t s).2.avails =
          alistInsert s.avails (generate_availability_id t s.avails)
            (createRecord caller req t s) := by
        simp [create_availability, hval, createRecord]
      have hus : (create_availability caller req t s).2.users =
          alistInsert s.users caller
            (userIdsOf s caller ++ [generate_availability_id t s.avails]) := by
        simp [create_availability, hval]
      constructor
      · intro k a hk
        rw [hav, alistGet_insert] at hk
        rw [hus]
        by_cases hkg : k = generate_availability_id t s.avails
        · rw [if_pos hkg] at hk
          cases hk
          rw [alistGet_insert,
            if_pos (show (createRecord caller req t s).owner = caller from rfl)]
          simp only [Option.getD_some]
          rw [hkg]
          exact List.mem_append_right _ (List.mem_singleton.mpr rfl)
        · rw [if_neg hkg] at hk
          have hk2 := hoi k a hk
          rw [alistGet_insert]
          by_cases hao : a.owner = caller
          · rw [if_pos hao]
            simp only [Option.getD_some]
            exact List.mem_append_left _ (hao ▸ hk2)
          · rw [if_neg hao]
            exact hk2
      · intro k1 k2 a1 a2 h1 h2 how f1 f2
        rw [hav, alistGet_insert] at h1 h2
        by_cases hk1 : k1 = generate_availability_id t s.avails
        · by_cases hk2 : k2 = generate_availability_id t s.avails
          · rw [hk1, hk2]
          · rw [if_pos hk1] at h1
            rw [if_neg hk2] at h2
            cases h1
            have f1b : ((userIdsOf s caller).length == 0) = true := f1
            have hl : (userIdsOf s caller).length = 0 := by simpa using f1b
            have hids : userIdsOf s caller = [] := List.length_eq_zero.mp hl
            have hao2 : a2.owner = caller := how.symm
            have hmem := hoi k2 a2 h2
            rw [hao2] at hmem
            rw [show ((alistGet s.users caller).getD [] : List String) =
              userIdsOf s caller from rfl, hids] at hmem
            cases hmem
        · by_cases hk2 : k2 = generate_availability_id t s.avails
          · rw [if_pos hk2] at h2
            rw [if_neg hk1] at h1
            cases h2
            have f2b : ((userIdsOf s caller).length == 0) = true := f2
            have hl : (userIdsOf s caller).length = 0 := by simpa using f2b
            have hids : userIdsOf s caller = [] := List.length_eq_zero.mp hl
            have hao1 : a1.owner = caller := how
            have hmem := hoi k1 a1 h1
            rw [hao1] at hmem
            rw [show ((alistGet s.users caller).getD [] : List String) =
              userIdsOf s caller from rfl, hids] at hmem
            cases hmem
          · rw [if_neg hk1] at h1
            rw [if_neg hk2] at h2
            exact hfav k1 k2 a1 a2 h1 h2 how f1 f2
  | update caller req t =>
    show Inv (update_availability caller req t s).2
    obtain ⟨hus, hpres⟩ := update_pres caller req t s
    constructor
    · rw [hus]
      exact ownerIndexed_of_pres s.avails _ s.users
        (fun k a2 hk => (hpres k a2 hk).imp (fun a1 hh => ⟨hh.1, hh.2.1⟩)) hoi
    · exact atMostOne_of_pres s.avails _ hpres hfav
  | updateBusyTimes caller id busy t =>
    show Inv (update_availability_busy_times caller id busy t s).2
    obtain ⟨hus, hpres⟩ := busy_pres caller id busy t s
    constructor
    · rw [hus]
      exact ownerIndexed_of_pres s.avails _ s.users
        (fun k a2 hk => (hpres k a2 hk).imp (fun a1 hh => ⟨hh.1, hh.2.1⟩)) hoi
    · exact atMostOne_of_pres s.avails _ hpres hfav
  | delete caller id =>
    show Inv (delete_availability caller id s).2
    cases hget : alistGet s.avails id with
    | none =>
      have hu : (delete_availability caller id s).2 = s := by
        simp [delete_availability, hget]
      rw [hu]
      exact ⟨hoi, hfav⟩
    | some a0 =>
      by_cases howner : a0.owner = caller
      · have hav : (delete_availability caller id s).2.avails = alistErase s.avails id := by
          simp [delete_availability, hget, howner]
        have hus : (delete_availability caller id s).2.users =
            (match alistGet s.users caller with
             | some ids => alistInsert s.users caller
                 (ids.filter (fun x => !(decide (x = id))))
             | none => s.users) := by
          simp [delete_availability, hget, howner]
        constructor
        · intro k b hk
          rw [hav, alistGet_erase] at hk
          by_cases hkid : k = id
          · rw [if_pos hkid] at hk
            cases hk
          · rw [if_neg hkid] at hk
            have hk2 := hoi k b hk
            rw [hus]
            cases hu2 : alistGet s.users caller with
            | none =>
              exact hk2
            | some ids =>
              rw [alistGet_insert]
              by_cases hbo : b.owner = caller
              · rw [if_pos hbo]
                simp only [Option.getD_some]
                rw [hbo, hu2] at hk2
                simp only [Option.getD_some] at hk2
                rw [List.mem_filter]
                exact ⟨hk2, by simp [hkid]⟩
              · rw [if_neg hbo]
                exact hk2
        · rw [hav]
          refine atMostOne_of_pres s.avails _ ?_ hfav
          intro k b hk
          rw [alistGet_erase] at hk
          by_cases hkid : k = id
          · rw [if_pos hkid] at hk
            cases hk
          · rw [if_neg hkid] at hk
            exact ⟨b, hk, rfl, rfl⟩
      · have hu : (delete_availability caller id s).2 = s := by
          simp [delete_availability, hget, howner]
        rw [hu]
        exact ⟨hoi, hfav⟩
  | regenerate caller old_id t =>
    show Inv (regenerate_availability_id caller old_id t s).2
    cases hget : alistGet s.avails old_id with
    | none =>
      have hu : (regenerate_availability_id caller old_id t s).2 = s := by
        simp [regenerate_availability_id, hget]
      rw [hu]
      exact ⟨hoi, hfav⟩
    | some a0 =>
      by_cases howner : a0.owner = caller
      · have hmem : old_id ∈ (alistGet s.users caller).getD [] := by
          have hh := hoi old_id a0 hget
          rw [howner] at hh
          exact hh
        have hav : (regenerate_availability_id caller old_id t s).2.avails =
            alistInsert (alistErase s.avails old_id) (generate_availability_id t s.avails)
              { a0 with id := generate_availability_id t s.avails, updated_at := t } := by
          simp [regenerate_availability_id, hget, howner]
        have hus : (regenerate_availability_id caller old_id t s).2.users =
            (match alistGet s.users caller with
             | some ids => alistInsert s.users caller
                 (replaceFirst ids old_id (generate_availability_id t s.avails))
             | none => s.users) := by
          simp [regenerate_availability_id, hget, howner]
        cases hu2 : alistGet s.users caller with
        | none =>
          rw [hu2] at hmem
          cases hmem
        | some ids =>
          rw [hu2] at hmem
          simp only [Option.getD_some] at hmem
          constructor
          · intro k b hk
            rw [hav, alistGet_insert] at hk
            rw [hus]
            simp only [hu2]
            by_cases hkg : k = generate_availability_id t s.avails
            · rw [if_pos hkg] at hk
              cases hk
              rw [alistGet_insert, if_pos howner]
              simp only [Option.getD_some]
              rw [hkg]
              exact mem_replaceFirst_self ids old_id _ hmem
            · rw [if_neg hkg, alistGet_erase] at hk
              by_cases hko : k = old_id
              · rw [if_pos hko] at hk
                cases hk
              · rw [if_neg hko] at hk
                have hk2 := hoi k b hk
                rw [alistGet_insert]
                by_cases hbo : b.owner = caller
                · rw [if_pos hbo]
                  simp only [Option.getD_some]
                  rw [hbo, hu2] at hk2
                  simp only [Option.getD_some] at hk2
                  exact mem_replaceFirst_of_ne ids old_id _ k hk2 hko
                · rw [if_neg hbo]
                  exact hk2
          · intro k1 k2 b1 b2 h1 h2 how f1 f2
            rw [hav, alistGet_insert] at h1 h2
            by_cases hk1 : k1 = generate_availability_id t s.avails
            · by_cases hk2 : k2 = generate_availability_id t s.avails
              · rw [hk1, hk2]
              · rw [if_pos hk1] at h1
                rw [if_neg hk2, alistGet_erase] at h2
                cases h1
                by_cases hko2 : k2 = old_id
                · rw [if_pos hko2] at h2
                  cases h2
                · rw [if_neg hko2] at h2
                  have hf0 : a0.is_favorite = true := f1
                  have how2 : a0.owner = b2.owner := how
                  have heq := hfav old_id k2 a0 b2 hget h2 how2 hf0 f2
                  exact absurd heq.symm hko2
            · by_cases hk2 : k2 = generate_availability_id t s.avails
              · rw [if_pos hk2] at h2
                rw [if_neg hk1, alistGet_erase] at h1
                cases h2
                by_cases hko1 : k1 = old_id
                · rw [if_pos hko1] at h1
                  cases h1
                · rw [if_neg hko1] at h1
                  have hf0 : a0.is_favorite = true := f2
                  have how2 : b1.owner = a0.owner := how
                  have heq := hfav k1 old_id b1 a0 h1 hget how2 f1 hf0
                  exact absurd heq hko1
              · rw [if_neg hk1, alistGet_erase] at h1
                rw [if_neg hk2, alistGet_erase] at h2
                by_cases hko1 : k1 = old_id
                · rw [if_pos hko1] at h1
                  cases h1
                · rw [if_neg hko1] at h1
                  by_cases hko2 : k2 = old_id
                  · rw [if_pos hko2] at h2
                    cases h2
                  · rw [if_neg hko2] at h2
                    exact hfav k1 k2 b1 b2 h1 h2 how f1 f2
      · have hu : (regenerate_availability_id caller old_id t s).2 = s := by
          simp [regenerate_availability_id, hget, howner]
        rw [hu]
        exact ⟨hoi, hfav⟩
  | setFavorite caller X t =>
    show Inv (set_favorite_availability caller X t s).2
    cases hget : alistGet s.avails X with
    | none =>
      have hu : (set_favorite_availability caller X t s).2 = s := by
        simp [set_favorite_availability, hget]
      rw [hu]
      exact ⟨hoi, hfav⟩
    | some tA =>
      by_cases howner : tA.owner = caller
      · cases hne : (userIdsOf s caller).isEmpty with
        | true =>
          have hu : (set_favorite_availability caller X t s).2 = s := by
            simp [set_favorite_availability, hget, howner, hne]
          rw [hu]
          exact ⟨hoi, hfav⟩
        | false =>
          have hav : (set_favorite_availability caller X t s).2.avails =
              pass3 t X (userIdsOf s caller) 1
                (pass2 t X (pass1 t (userIdsOf s caller) s.avails)) := by
            simp [set_favorite_availability, hget, howner, hne]
          have hus : (set_favorite_availability caller X t s).2.users = s.users := by
            simp [set_favorite_availability, hget, howner, hne]
          have hpres12 : ∀ k b,
              alistGet (pass2 t X (pass1 t (userIdsOf s caller) s.avails)) k = some b →
              ∃ a1, alistGet s.avails k = some a1 ∧ a1.owner = b.owner := by
            intro k b hk
            rw [pass2_get] at hk
            by_cases hkX : k = X
            · rw [if_pos hkX, pass1_get] at hk
              by_cases hXm : X ∈ userIdsOf s caller
              · rw [if_pos hXm, hget] at hk
                have hk2 : some (setFavRec t (clearFav t tA)) = some b := hk
                cases hk2
                exact ⟨tA, hkX ▸ hget, rfl⟩
              · rw [if_neg hXm, hget] at hk
                have hk2 : some (setFavRec t tA) = some b := hk
                cases hk2
                exact ⟨tA, hkX ▸ hget, rfl⟩
            · rw [if_neg hkX, pass1_get] at hk
              by_cases hkm : k ∈ userIdsOf s caller
              · rw [if_pos hkm] at hk
                cases hsk : alistGet s.avails k with
                | none =>
                  rw [hsk] at hk
                  cases hk
                | some c =>
                  rw [hsk] at hk
                  have hk2 : some (clearFav t c) = some b := hk
                  cases hk2
                  exact ⟨c, rfl, rfl⟩
              · rw [if_neg hkm] at hk
                exact ⟨b, hk, rfl⟩
          constructor
          · rw [hus]
            intro k b hk
            rw [hav] at hk
            obtain ⟨b2, hb2, how2, -⟩ := pass3_pres t X _ 1 _ k b hk
            obtain ⟨a1, ha1, how1⟩ := hpres12 k b2 hb2
            rw [← how2, ← how1]
            exact hoi k a1 ha1
          · rw [hav]
            refine atMostOne_of_pres _ _ (pass3_pres t X _ 1 _) ?_
            intro k1 k2 b1 b2 h1 h2 how f1 f2
            rw [pass2_get] at h1 h2
            by_cases hk1 : k1 = X
            · by_cases hk2 : k2 = X
              · rw [hk1, hk2]
              · rw [if_neg hk2, pass1_get] at h2
                by_cases hk2m : k2 ∈ userIdsOf s caller
                · rw [if_pos hk2m] at h2
                  cases hsk : alistGet s.avails k2 with
                  | none =>
                    rw [hsk] at h2
                    cases h2
                  | some c =>
                    rw [hsk] at h2
                    have h2b : some (clearFav t c) = some b2 := h2
                    cases h2b
                    cases f2
                · rw [if_neg hk2m] at h2
                  rw [if_pos hk1, pass1_get] at h1
                  have hb1o : b1.owner = caller := by
                    by_cases hXm : X ∈ userIdsOf s caller
                    · rw [if_pos hXm, hget] at h1
                      have h1b : some (setFavRec t (clearFav t tA)) = some b1 := h1
                      cases h1b
                      exact howner
                    · rw [if_neg hXm, hget] at h1
                      have h1b : some (setFavRec t tA) = some b1 := h1
                      cases h1b
                      exact howner
                  have hb2o : b2.owner = caller := by
                    rw [← how]
                    exact hb1o
                  have hmem2 := hoi k2 b2 h2
                  rw [hb2o] at hmem2
                  exact absurd hmem2 hk2m
            · by_cases hk2 : k2 = X
              · rw [if_neg hk1, pass1_get] at h1
                by_cases hk1m : k1 ∈ userIdsOf s caller
                · rw [if_pos hk1m] at h1
                  cases hsk : alistGet s.avails k1 with
                  | none =>
                    rw [hsk] at h1
                    cases h1
                  | some c =>
                    rw [hsk] at h1
                    have h1b : some (clearFav t c) = some b1 := h1
                    cases h1b
                    cases f1
                · rw [if_neg hk1m] at h1
                  rw [if_pos hk2, pass1_get] at h2
                  have hb2o : b2.owner = caller := by
                    by_cases hXm : X ∈ userIdsOf s caller
                    · rw [if_pos hXm, hget] at h2
                      have h2b : some (setFavRec t (clearFav t tA)) = some b2 := h2
                      cases h2b
                      exact howner
                    · rw [if_neg hXm, hget] at h2
                      have h2b : some (setFavRec t tA) = some b2 := h2
                      cases h2b
                      exact howner
                  have hb1o : b1.owner = caller := by
                    rw [how]
                    exact hb2o
                  have hmem1 := hoi k1 b1 h1
                  rw [hb1o] at hmem1
                  exact absurd hmem1 hk1m
              · rw [if_neg hk1, pass1_get] at h1
                rw [if_neg hk2, pass1_get] at h2
                by_cases hk1m : k1 ∈ userIdsOf s caller
                · rw [if_pos hk1m] at h1
                  cases hsk : alistGet s.avails k1 with
                  | none =>
                    rw [hsk] at h1
                    cases h1
                  | some c =>
                    rw [hsk] at h1
                    have h1b : some (clearFav t c) = some b1 := h1
                    cases h1b
                    cases f1
                · rw [if_neg hk1m] at h1
                  by_cases hk2m : k2 ∈ userIdsOf s caller
                  · rw [if_pos hk2m] at h2
                    cases hsk : alistGet s.avails k2 with
                    | none =>
                      rw [hsk] at h2
                      cases h2
                    | some c =>
                      rw [hsk] at h2
                      have h2b : some (clearFav t c) = some b2 := h2
                      cases h2b
                      cases f2
                  · rw [if_neg hk2m] at h2
                    exact hfav k1 k2 b1 b2 h1 h2 how f1 f2
      · have hu : (set_favorite_availability caller X t s).2 = s := by
          simp [set_favorite_availability, hget, howner]
        rw [hu]
        exact ⟨hoi, hfav⟩

/-- Claim C1 witness: the invariant holds for the empty state and is preserved
by a concrete operation. -/
theorem C1_invariant_witness : Inv (applyOp (.delete 0 "x") State.empty) :=
  C1_invariant (.delete 0 "x") State.empty Inv_empty

/-- The state after three creates at time 1: the third create re-mints
"bbbbbb1" and overwrites the second record, duplicating the owner-index entry,
which becomes ["bbbbbb", "bbbbbb1", "bbbbbb1"] over k = 2 stored records. -/
def stateC2dup : State := (createRun 0 reqC4 [1, 1, 1] State.empty).1

/-- Claim C2 counterexample: in the reachable state `stateC2dup` the caller
owns k = 2 records while the owner index holds a duplicated id.
SetFavorite(0, "bbbbbb") succeeds and makes "bbbbbb" the favorite with rank 0,
but the third pass visits the duplicated id "bbbbbb1" twice, leaving the single
non-favorite record with display_order = 2 — not the claimed set
{1, …, k-1} = {1}. -/
theorem C2_counterexample :
    userIdsOf stateC2dup 0 = ["bbbbbb", "bbbbbb1", "bbbbbb1"] ∧
    stateC2dup.avails.length = 2 ∧
    (set_favorite_availability 0 "bbbbbb" 3 stateC2dup).1 = .ok () ∧
    (alistGet (set_favorite_availability 0 "bbbbbb" 3 stateC2dup).2.avails "bbbbbb").map
      (fun a => (a.is_favorite, a.display_order)) = some (true, 0) ∧
    (alistGet (set_favorite_availability 0 "bbbbbb" 3 stateC2dup).2.avails "bbbbbb1").map
      (fun a => (a.is_favorite, a.display_order)) = some (false, 2) := by
  decide

end Weeekaly
